import Mathlib

/-!
# Amlogic Meson GPIO interrupt multiplexer

A shallow embedding of `drivers/pinctrl/meson/irqchip-gpio-meson.c`: the table
`irq_map` that binds the shared GIC lines to pins, the mux registers behind
`reg_irq`, the three domain operations (allocate, free, set trigger type) and
the initialisation; and of the two bounce-buffer transfers of
`drivers/firmware/meson/meson_sm.c`.

Conventions of the embedding
* machine words are natural numbers; a value stored in a 32-bit register or
  passed as `unsigned int` is reduced modulo `2 ^ 32` at the place where the C
  code converts it;
* `irq_hw_number_t` (`unsigned long`) is a natural number, and `to_int` is the
  conversion to `int` that happens when a pin number is stored in `irq_map` or
  handed to `meson_get_gic_irq`;
* the array `irq_map` of `num_gic_irqs` ints is a list, `num_gic_irqs` is its
  length;
* the spin lock is not modelled (the functions are taken to run atomically);
* calls into the interrupt core and the parent controller are recorded in a
  call log, their results are supplied by `parent_ops`.
-/

namespace Meson

/-! ## Constants of the source file and of the kernel headers it uses -/

def REG_EDGE_POL : Nat := 0x00
def REG_GPIO_SEL0 : Nat := 0x04
def REG_GPIO_SEL1 : Nat := 0x08
def REG_FILTER : Nat := 0x0c

def IRQ_FREE : Int := -1

/-- Modelled from the spec: the error `UnknownBinding`, which the source names
`EINVAL` (`errno-base.h`, a header that is not part of the sources at hand). -/
def EINVAL : Int := 22

/-- Modelled from the spec: the error `ResourceExhausted`, which the source
names `ENOSPC` (`errno-base.h`, a header that is not part of the sources at
hand). -/
def ENOSPC : Int := 28

/-- Modelled from the spec: the trigger types of `linux/irq.h` (rising edge). -/
def IRQ_TYPE_EDGE_RISING : Nat := 0x1
/-- Modelled from the spec: the trigger types of `linux/irq.h` (falling edge). -/
def IRQ_TYPE_EDGE_FALLING : Nat := 0x2
/-- Modelled from the spec: the trigger types of `linux/irq.h` (both edges). -/
def IRQ_TYPE_EDGE_BOTH : Nat := 0x3
/-- Modelled from the spec: the trigger types of `linux/irq.h` (level high). -/
def IRQ_TYPE_LEVEL_HIGH : Nat := 0x4
/-- Modelled from the spec: the trigger types of `linux/irq.h` (level low). -/
def IRQ_TYPE_LEVEL_LOW : Nat := 0x8

/-- Modelled from the spec: number of cells of an `irq_fwspec`
(`IRQ_DOMAIN_IRQ_SPEC_PARAMS` of `linux/irqdomain.h`). -/
def IRQ_DOMAIN_IRQ_SPEC_PARAMS : Nat := 16

/-- Modelled from the spec: the helper `BIT(nr)` of `linux/bitops.h`,
`1UL << nr`. The shift is exact; the reduction to 32 bits happens where the
value is stored in an `u32` or passed as `unsigned int`. -/
def BIT (nr : Nat) : Nat := 1 <<< nr

def REG_EDGE_POL_MASK (x : Nat) : Nat := BIT x ||| BIT (16 + x)
def REG_EDGE_POL_EDGE (x : Nat) : Nat := BIT x
def REG_EDGE_POL_LOW (x : Nat) : Nat := BIT (16 + x)

/-- Conversion of an unsigned machine word to `unsigned int`. -/
def to_u32 (v : Nat) : Nat := v % 2 ^ 32

/-- Conversion of an unsigned machine word to `int` (32 bits, wrapping into
the negative range), as done when an `irq_hw_number_t` is stored in `irq_map` or
passed to `meson_get_gic_irq`. -/
def to_int (v : Nat) : Int :=
  if v % 2 ^ 32 < 2 ^ 31 then ((v % 2 ^ 32 : Nat) : Int)
  else ((v % 2 ^ 32 : Nat) : Int) - 2 ^ 32

/-! ## Data model -/

/-- Modelled from the spec: the fields of `struct meson_bank`
(`pinctrl-meson.h`, not part of the sources at hand) that the interrupt code
reads: the first pin of the bank and the mux value of that first pin. -/
structure meson_bank where
  first : Nat
  irq : Nat
deriving DecidableEq

/-- Modelled from the spec: the register block behind `pc->reg_irq`, a map from
register offset to 32-bit content (`struct regmap`). -/
abbrev regmap : Type := Nat → Nat

/-- Modelled from the spec: the fields of `struct meson_pinctrl`
(`pinctrl-meson.h`, not part of the sources at hand) that the interrupt code
uses. `num_gic_irqs` is the length of `irq_map`. -/
structure meson_pinctrl where
  irq_map : List Int
  gic_irqs : List Nat
  reg_irq : regmap

def meson_pinctrl.num_gic_irqs (pc : meson_pinctrl) : Nat := pc.irq_map.length

/-- Modelled from the spec: `struct irq_fwspec` of `linux/irqdomain.h`; a cell
that was never written is `none`. -/
structure irq_fwspec where
  param_count : Nat
  param : List (Option Nat)
deriving DecidableEq

/-- Content of cell `i` of a firmware spec (an unwritten cell reads as 0). -/
def irq_fwspec.cell (f : irq_fwspec) (i : Nat) : Nat :=
  match f.param.get? i with
  | some (some v) => v
  | _ => 0

/-- Modelled from the spec: the fields of `struct irq_data` that the driver
reads. -/
structure irq_data where
  irq : Nat
  hwirq : Nat
deriving DecidableEq

/-- Calls that leave the driver, in the order in which they are made. -/
inductive kernel_call where
  | irq_chip_set_type_parent (data : irq_data) (type : Nat)
  | irq_domain_set_hwirq_and_chip (virq hwirq : Nat)
  | irq_domain_alloc_irqs_parent (irq_base nr_irqs : Nat) (arg : irq_fwspec)
  | irq_domain_free_irqs_parent (irq_base nr_irqs : Nat)
deriving DecidableEq

/-- Results of the parent interrupt controller, an external collaborator. -/
structure parent_ops where
  irq_chip_set_type_parent : irq_data → Nat → Int
  irq_domain_alloc_irqs_parent : Nat → Nat → irq_fwspec → Int

/-- Modelled from the spec: `meson_get_domain_and_bank` of `pinctrl-meson.c`
(not part of the sources at hand) is a parameter of the embedding: for a pin
it gives the return code (0 when the bank resolves) and the bank. -/
abbrev bank_lookup : Type := Nat → Int × meson_bank

/-- Modelled from the spec: `regmap_update_bits(map, reg, mask, val)`, the
masked read-modify-write of the register access abstraction:
`tmp = orig & ~mask; tmp |= val & mask;` on `unsigned int`. -/
def regmap_update_bits (map : regmap) (reg mask val : Nat) : regmap :=
  let orig := to_u32 (map reg)
  let tmp := orig &&& (0xffffffff ^^^ to_u32 mask)
  let tmp := tmp ||| (to_u32 val &&& to_u32 mask)
  Function.update map reg tmp

/-! ## The driver -/

/-- The loop of `meson_get_gic_irq`, from slot `i` on, over the slots that are
left. -/
def meson_get_gic_irq_from : List Int → Int → Nat → Int
  | [], _, _ => -1
  | x :: rest, hwirq, i =>
      if x = hwirq then (i : Int) else meson_get_gic_irq_from rest hwirq (i + 1)

/-- The reverse lookup: the lowest slot whose entry equals `hwirq`, or -1. -/
def meson_get_gic_irq (pc : meson_pinctrl) (hwirq : Int) : Int :=
  meson_get_gic_irq_from pc.irq_map hwirq 0

/-- The result is the return value, the driver state and the calls made. `val`
is an `u32`, so each `|=` reduces to 32 bits; the mask is reduced where it is
passed to `regmap_update_bits`. -/
def meson_irq_set_type (parent : parent_ops) (pc : meson_pinctrl) (data : irq_data)
    (type : Nat) : Int × meson_pinctrl × List kernel_call :=
  let val : Nat := 0
  let index := meson_get_gic_irq pc (to_int data.hwirq)
  if index < 0 then
    (-EINVAL, pc, [])
  else
    let val :=
      if type = IRQ_TYPE_EDGE_FALLING ∨ type = IRQ_TYPE_EDGE_RISING then
        to_u32 (val ||| REG_EDGE_POL_EDGE index.toNat)
      else val
    let val :=
      if type = IRQ_TYPE_EDGE_FALLING ∨ type = IRQ_TYPE_LEVEL_LOW then
        to_u32 (val ||| REG_EDGE_POL_LOW index.toNat)
      else val
    let reg_irq :=
      regmap_update_bits pc.reg_irq REG_EDGE_POL (REG_EDGE_POL_MASK index.toNat) val
    let type :=
      if type = IRQ_TYPE_LEVEL_LOW then IRQ_TYPE_LEVEL_HIGH
      else if type = IRQ_TYPE_EDGE_FALLING then IRQ_TYPE_EDGE_RISING
      else type
    (parent.irq_chip_set_type_parent data type, { pc with reg_irq := reg_irq },
      [kernel_call.irq_chip_set_type_parent data type])

/-- The value `bank->irq + hwirq - bank->first`, computed in unsigned
arithmetic (only its low 32 bits reach the register access). -/
def mux_value (bank : meson_bank) (hwirq : Nat) : Nat :=
  (((bank.irq : Int) + (hwirq : Int) - (bank.first : Int)) % 2 ^ 32).toNat

/-- The result is the return value and the driver state. The shifts are exact
and the operands are reduced to 32 bits where they are passed to
`regmap_update_bits`, so a mask or value shifted beyond bit 31 is lost. -/
def meson_map_gic_irq (get_bank : bank_lookup) (pc : meson_pinctrl) (hwirq : Nat) :
    Int × meson_pinctrl :=
  let ret := (get_bank hwirq).1
  let bank := (get_bank hwirq).2
  if ret ≠ 0 then
    (ret, pc)
  else
    let index := meson_get_gic_irq pc IRQ_FREE
    if index < 0 then
      (-ENOSPC, pc)
    else
      let irq_map := pc.irq_map.set index.toNat (to_int hwirq)
      let reg := if index < 4 then REG_GPIO_SEL0 else REG_GPIO_SEL1
      let reg_irq := regmap_update_bits pc.reg_irq reg (0xff <<< ((index.toNat % 4) * 8))
        (mux_value bank hwirq <<< ((index.toNat % 4) * 8))
      let reg_irq := regmap_update_bits reg_irq REG_FILTER (0xf <<< (index.toNat * 4))
        (7 <<< (index.toNat * 4))
      (index, { pc with irq_map := irq_map, reg_irq := reg_irq })

/-- The request that `meson_irq_domain_alloc` hands to the parent for the
shared line `index`, built by the assignments of the source in their order. -/
def gic_data_for (pc : meson_pinctrl) (index : Nat) : irq_fwspec :=
  let gic_data : irq_fwspec := ⟨0, List.replicate IRQ_DOMAIN_IRQ_SPEC_PARAMS none⟩
  let gic_data := { gic_data with param_count := 3 }
  let gic_data := { gic_data with param := gic_data.param.set 0 (some 0) }
  let gic_data := { gic_data with param := gic_data.param.set 1 (some (pc.gic_irqs.getD index 0)) }
  let gic_data := { gic_data with param := gic_data.param.set 1 (some IRQ_TYPE_EDGE_RISING) }
  gic_data

/-- The loop of `meson_irq_domain_alloc`: `i` is the loop counter, the second
argument the number of iterations that are left. The result of
`irq_domain_alloc_irqs_parent` is stored in `ret` and never read. -/
def meson_irq_domain_alloc_loop (get_bank : bank_lookup) (parent : parent_ops)
    (irq nr_irqs hwirq : Nat) :
    Nat → Nat → meson_pinctrl → List kernel_call → Int × meson_pinctrl × List kernel_call
  | _, 0, pc, log => (0, pc, log)
  | i, k + 1, pc, log =>
      let r := meson_map_gic_irq get_bank pc (hwirq + i)
      let index := r.1
      if index < 0 then
        (index, r.2, log)
      else
        let gic_data := gic_data_for r.2 index.toNat
        let _ret := parent.irq_domain_alloc_irqs_parent (irq + i) nr_irqs gic_data
        meson_irq_domain_alloc_loop get_bank parent irq nr_irqs hwirq (i + 1) k r.2
          (log ++ [kernel_call.irq_domain_set_hwirq_and_chip (irq + i) (hwirq + i),
                   kernel_call.irq_domain_alloc_irqs_parent (irq + i) nr_irqs gic_data])

/-- The result is the return value, the driver state and the calls made
(`gic_data.fwnode` is not modelled). -/
def meson_irq_domain_alloc (get_bank : bank_lookup) (parent : parent_ops)
    (pc : meson_pinctrl) (irq nr_irqs : Nat) (arg : irq_fwspec) :
    Int × meson_pinctrl × List kernel_call :=
  if arg.param_count ≠ 2 then
    (-EINVAL, pc, [])
  else
    let hwirq := arg.cell 0
    meson_irq_domain_alloc_loop get_bank parent irq nr_irqs hwirq 0 nr_irqs pc []

/-- The loop of `meson_irq_domain_free` over the table: `i` is the loop
counter, the second argument the number of iterations that are left;
`irq_domain_get_irq_data` is the lookup of the interrupt core. -/
def meson_irq_domain_free_loop (irq_domain_get_irq_data : Nat → irq_data) (irq : Nat) :
    Nat → Nat → meson_pinctrl → meson_pinctrl
  | _, 0, pc => pc
  | i, k + 1, pc =>
      let data := irq_domain_get_irq_data (irq + i)
      let index := meson_get_gic_irq pc (to_int data.hwirq)
      if index < 0 then
        meson_irq_domain_free_loop irq_domain_get_irq_data irq (i + 1) k pc
      else
        meson_irq_domain_free_loop irq_domain_get_irq_data irq (i + 1) k
          { pc with irq_map := pc.irq_map.set index.toNat IRQ_FREE }

/-- The result is the driver state and the calls made (the function returns
nothing). -/
def meson_irq_domain_free (irq_domain_get_irq_data : Nat → irq_data)
    (pc : meson_pinctrl) (irq nr_irqs : Nat) : meson_pinctrl × List kernel_call :=
  (meson_irq_domain_free_loop irq_domain_get_irq_data irq 0 nr_irqs pc,
    [kernel_call.irq_domain_free_irqs_parent irq nr_irqs])

/-! ## Notions of the specification -/

/-- The normalisation of the specification, in its words: level-low becomes
level-high, falling-edge becomes rising-edge, all other types pass through
unchanged. -/
def normalize_for_parent (requested_type : Nat) : Nat :=
  if requested_type = IRQ_TYPE_LEVEL_LOW then IRQ_TYPE_LEVEL_HIGH
  else if requested_type = IRQ_TYPE_EDGE_FALLING then IRQ_TYPE_EDGE_RISING
  else requested_type

/-- Number of free slots of a table. -/
def free_slots (irq_map : List Int) : Nat := irq_map.count IRQ_FREE

/-- The pins held by the occupied slots of a table, in slot order. -/
def occupied (irq_map : List Int) : List Int := irq_map.filter (fun x => x ≠ IRQ_FREE)

/-- A bank lookup for a device with one bank of `count` pins: the pins of
`[first, first + count)` resolve to the bank, every other pin is refused. -/
def single_bank (bank : meson_bank) (count : Nat) : bank_lookup :=
  fun pin => if bank.first ≤ pin ∧ pin < bank.first + count then (0, bank) else (-EINVAL, bank)

/-- A parent controller that accepts every request. -/
def parent_ok : parent_ops := ⟨fun _ _ => 0, fun _ _ _ => 0⟩

/-- The request of the interrupt core for pin `hwirq` with trigger `type`. -/
def fwspec_for (hwirq type : Nat) : irq_fwspec := ⟨2, [some hwirq, some type]⟩

/-- The lookup of the interrupt core when virtual interrupt `irq + i` belongs
to pin `hwirq + i`. -/
def irq_data_for (irq hwirq : Nat) : Nat → irq_data :=
  fun virq => ⟨virq, hwirq + (virq - irq)⟩

/-- A pool of `n` shared lines, all free, with cleared registers. -/
def empty_pool (n : Nat) : meson_pinctrl :=
  ⟨List.replicate n IRQ_FREE, List.range n, fun _ => 0⟩

/-- A pool with the given table and cleared registers. -/
def pool_of (irq_map : List Int) : meson_pinctrl :=
  ⟨irq_map, List.range irq_map.length, fun _ => 0⟩

/-- Byte `k` (bits `8k+7 .. 8k`) of a register value. -/
def reg_byte (v k : Nat) : Nat := (v >>> (8 * k)) % 2 ^ 8

/-! ### Sequences of Allocate and Free calls -/

/-- One call of the domain interface: Allocate (`meson_irq_domain_alloc`) or
Free (`meson_irq_domain_free`, with the lookup of the interrupt core that
tells which pin each virtual interrupt of the request belongs to). -/
inductive pool_op where
  | allocate (irq nr_irqs : Nat) (arg : irq_fwspec)
  | free (irq_domain_get_irq_data : Nat → irq_data) (irq nr_irqs : Nat)

/-- The pins (as stored in the table) for which a call log records a
successful binding: `meson_irq_domain_alloc` calls
`irq_domain_set_hwirq_and_chip` for a pin exactly when `meson_map_gic_irq`
returned a slot for it. -/
def pins_bound_by : List kernel_call → List Int
  | [] => []
  | kernel_call.irq_domain_set_hwirq_and_chip _ hwirq :: rest =>
      to_int hwirq :: pins_bound_by rest
  | _ :: rest => pins_bound_by rest

/-- The pins (as stored in the table) that a Free request names. -/
def pins_freed_by (irq_domain_get_irq_data : Nat → irq_data) (irq nr_irqs : Nat) : List Int :=
  (List.range nr_irqs).map (fun i => to_int (irq_domain_get_irq_data (irq + i)).hwirq)

/-- The driver state together with the pins that are currently allocated: those
for which an Allocate succeeded and that no later Free named. -/
structure tracked where
  pc : meson_pinctrl
  allocated : List Int

def track_op (get_bank : bank_lookup) (parent : parent_ops) (t : tracked) : pool_op → tracked
  | pool_op.allocate irq nr_irqs arg =>
      ⟨(meson_irq_domain_alloc get_bank parent t.pc irq nr_irqs arg).2.1,
        t.allocated ++ pins_bound_by (meson_irq_domain_alloc get_bank parent t.pc irq nr_irqs arg).2.2⟩
  | pool_op.free get irq nr_irqs =>
      ⟨(meson_irq_domain_free get t.pc irq nr_irqs).1,
        t.allocated.filter (fun p => decide (p ∉ pins_freed_by get irq nr_irqs))⟩

def track_ops (get_bank : bank_lookup) (parent : parent_ops) : tracked → List pool_op → tracked
  | t, [] => t
  | t, op :: rest => track_ops get_bank parent (track_op get_bank parent t op) rest

/-- No pin of an Allocate request is held by a slot when the call is made. -/
def op_fresh (pc : meson_pinctrl) : pool_op → Prop
  | pool_op.allocate _ nr_irqs arg => ∀ i, i < nr_irqs → to_int (arg.cell 0 + i) ∉ pc.irq_map
  | pool_op.free _ _ _ => True

/-- Every Allocate of the sequence is for pins that are not bound at that
moment. -/
def ops_fresh (get_bank : bank_lookup) (parent : parent_ops) : tracked → List pool_op → Prop
  | _, [] => True
  | t, op :: rest =>
      op_fresh t.pc op ∧ ops_fresh get_bank parent (track_op get_bank parent t op) rest

/-- The invariant of the table: no pin is held by two slots, and the pins
described by `A` are exactly the pins held by the occupied slots. -/
def pool_inv (irq_map : List Int) (A : Int → Prop) : Prop :=
  (∀ i j : Nat, ∀ x : Int, irq_map[i]? = some x → irq_map[j]? = some x → x ≠ IRQ_FREE → i = j) ∧
  (∀ p : Int, A p ↔ (p ≠ IRQ_FREE ∧ p ∈ irq_map))

/-! ### The scenario of the specification: three lines, pins 10, 20, 30, 40 -/

/-- Allocate of the single pin `hwirq` (as virtual interrupt `hwirq`) on a
device whose only bank has pins 0 to 99. -/
def scenario_alloc (pc : meson_pinctrl) (hwirq : Nat) : Int × meson_pinctrl × List kernel_call :=
  meson_irq_domain_alloc (single_bank ⟨0, 0⟩ 100) parent_ok pc hwirq 1
    (fwspec_for hwirq IRQ_TYPE_EDGE_RISING)

/-- Free of the single pin `hwirq` (as virtual interrupt `hwirq`). -/
def scenario_free (pc : meson_pinctrl) (hwirq : Nat) : meson_pinctrl :=
  (meson_irq_domain_free (irq_data_for hwirq hwirq) pc hwirq 1).1

def scenario_1 : meson_pinctrl := (scenario_alloc (empty_pool 3) 10).2.1
def scenario_2 : meson_pinctrl := (scenario_alloc scenario_1 20).2.1
def scenario_3 : meson_pinctrl := (scenario_alloc scenario_2 30).2.1
def scenario_4 : meson_pinctrl := (scenario_alloc scenario_3 40).2.1
def scenario_5 : meson_pinctrl := scenario_free scenario_4 20
def scenario_6 : meson_pinctrl := (scenario_alloc scenario_5 40).2.1

/-- The H bank of the header comment (`GPIOH_9 -> 23`): first pin 96, mux
value 14 for its first pin. -/
def bank_H : meson_bank := ⟨96, 14⟩

/-! ### Concrete devices and requests used to exercise the statements -/

/-- A parent controller that refuses every request with the error code -5. -/
def parent_eio : parent_ops := ⟨fun _ _ => -5, fun _ _ _ => -5⟩

/-- A sequence of calls on a device with three lines: pins 10 and 11 are
allocated in one request, pin 10 is freed, pin 10 is allocated again. -/
def demo_ops : List pool_op :=
  [pool_op.allocate 5 2 (fwspec_for 10 IRQ_TYPE_EDGE_RISING),
   pool_op.free (irq_data_for 5 10) 5 1,
   pool_op.allocate 7 1 (fwspec_for 10 IRQ_TYPE_EDGE_RISING)]

/-- Eight lines of which slots 0 to 4 are taken, so that slot 5 is the lowest
free slot. -/
def pool_H : meson_pinctrl := pool_of [1, 2, 3, 4, 5, IRQ_FREE, IRQ_FREE, IRQ_FREE]

/-- A device description with 17 lines: slots 0 to 15 are free, slot 16 holds
pin 5. -/
def pool_17 : meson_pinctrl := pool_of (List.replicate 16 IRQ_FREE ++ [5])

/-- Three free lines whose upstream line identities are 64, 65 and 66. -/
def pool_lines : meson_pinctrl := ⟨List.replicate 3 IRQ_FREE, [64, 65, 66], fun _ => 0⟩

/-- Modelled from the spec: the error of a failed memory allocation, which the
source names `ENOMEM` (`errno-base.h`, a header that is not part of the sources
at hand). -/
def ENOMEM : Int := 12

/-- The value of the property `amlogic,irqs-gpio` of the device description:
its length in bytes and its 32-bit cells, one upstream line identity each. -/
structure of_property where
  size : Nat
  cells : List Nat

/-- Modelled from the spec: `of_property_read_u32_index` of the device-tree
code reads cell `index` of the property into `out` when the cell lies inside
the value, and leaves `out` as it is otherwise. -/
def of_property_read_u32_index (p : of_property) (index out : Nat) : Nat :=
  if (index + 1) * 4 ≤ p.size then p.cells.getD index out else out

/-- What the platform answers to the requests of `meson_gpio_irq_init`: whether
the parent node and the parent domain are found, the mapped register block,
the property with the shared lines, the content of the memory that
`devm_kmalloc` hands out for `irq_map` (not initialised, so arbitrary; `none`
when the allocation fails), whether `devm_kzalloc` for `gic_irqs` succeeds and
whether the hierarchy domain is created. -/
structure irq_platform where
  parent_node : Bool
  parent_domain : Bool
  reg_irq : Option regmap
  irqs_gpio : Option of_property
  irq_map_mem : Option (Nat → Int)
  gic_irqs_mem : Bool
  irq_domain : Bool

/-- The loop of `meson_gpio_irq_init`: `i` is the loop counter, the second
argument the number of iterations that are left. -/
def meson_gpio_irq_init_loop (prop : of_property) :
    Nat → Nat → List Int → List Nat → List Int × List Nat
  | _, 0, irq_map, gic_irqs => (irq_map, gic_irqs)
  | i, k + 1, irq_map, gic_irqs =>
      meson_gpio_irq_init_loop prop (i + 1) k (irq_map.set i IRQ_FREE)
        (gic_irqs.set i (of_property_read_u32_index prop i (gic_irqs.getD i 0)))

/-- The result is the return value and the driver state. A pointer that the
function leaves at NULL on an error path keeps its former value in the
embedding. -/
def meson_gpio_irq_init (plat : irq_platform) (pc : meson_pinctrl) : Int × meson_pinctrl :=
  if plat.parent_node = false then
    (-EINVAL, pc)
  else if plat.parent_domain = false then
    (-EINVAL, pc)
  else
    match plat.reg_irq with
    | none => (-EINVAL, pc)
    | some reg_irq =>
      let pc := { pc with reg_irq := reg_irq }
      match plat.irqs_gpio with
      | none => (-EINVAL, pc)
      | some prop =>
        let num_gic_irqs := prop.size / 4
        match plat.irq_map_mem with
        | none => (-ENOMEM, pc)
        | some mem =>
          let irq_map := (List.range num_gic_irqs).map mem
          if plat.gic_irqs_mem = false then
            (-ENOMEM, { pc with irq_map := irq_map })
          else
            let gic_irqs := List.replicate num_gic_irqs 0
            let filled := meson_gpio_irq_init_loop prop 0 num_gic_irqs irq_map gic_irqs
            let pc := { pc with irq_map := filled.1, gic_irqs := filled.2 }
            if plat.irq_domain = false then
              (-EINVAL, pc)
            else
              (0, pc)

/-- A platform on which the initialisation succeeds: three shared lines 64,
65, 66, and memory for `irq_map` that holds the values 7, 8, 9 before it is
initialised. -/
def platform_3 : irq_platform :=
  ⟨true, true, some (fun _ => 0), some ⟨12, [64, 65, 66]⟩, some (fun i => (i : Int) + 7), true, true⟩

/-- Allocate of the single pin `hwirq` as virtual interrupt `irq`. -/
def alloc_pin (get_bank : bank_lookup) (parent : parent_ops) (pc : meson_pinctrl)
    (irq hwirq : Nat) : Int × meson_pinctrl × List kernel_call :=
  meson_irq_domain_alloc get_bank parent pc irq 1 (fwspec_for hwirq IRQ_TYPE_EDGE_RISING)

/-- The state produced by `n` single Allocate calls, one after another, for the
pins `hwirq + i`, `hwirq + i + 1`, ... (as virtual interrupts `irq + i`, ...),
starting from `pc`. -/
def alloc_singly (get_bank : bank_lookup) (parent : parent_ops) (irq hwirq : Nat) :
    Nat → Nat → meson_pinctrl → meson_pinctrl
  | _, 0, pc => pc
  | i, n + 1, pc =>
      alloc_singly get_bank parent irq hwirq (i + 1) n
        (alloc_pin get_bank parent pc (irq + i) (hwirq + i)).2.1

/-- Nibble `k` (bits `4k+3 .. 4k`) of a register value. -/
def reg_nibble (v k : Nat) : Nat := (v >>> (4 * k)) % 2 ^ 4

/-- Nine lines of which slots 0 to 7 hold the pins 10 to 17 and slot 8 is
free; the selection registers hold the pin numbers of slots 0 to 7 byte by
byte and every nibble of the filter register holds 7, as the bindings of these
pins leave them on a device whose only bank has pins 0 to 99. -/
def pool_9 : meson_pinctrl :=
  ⟨[10, 11, 12, 13, 14, 15, 16, 17, IRQ_FREE], List.range 9,
    fun reg =>
      if reg = REG_GPIO_SEL0 then 0x0d0c0b0a
      else if reg = REG_GPIO_SEL1 then 0x11100f0e
      else if reg = REG_FILTER then 0x77777777
      else 0⟩

/-! ## The secure monitor driver (`drivers/firmware/meson/meson_sm.c`) -/

def SM_MEM_SIZE : Nat := 0x1000

/-- Conversion of an `int` to `u32`, as done by `return -EINVAL` in a function
that returns `u32`. -/
def int_to_u32 (v : Int) : Nat := (v % 2 ^ 32).toNat

structure meson_sm_data where
  cmd : Nat
  arg0 : Nat
  arg1 : Nat
  arg2 : Nat
  arg3 : Nat
  arg4 : Nat
  ret : Nat
deriving DecidableEq

/-- What leaves a trace outside the driver: a call of the secure monitor with
its eight register arguments, a `memcpy` of `n` bytes out of the shared output
buffer, a `memcpy` of `n` bytes into the shared input buffer. -/
inductive sm_event where
  | smc (args : List Nat)
  | memcpy_from_out (n : Nat)
  | memcpy_to_in (n : Nat)
deriving DecidableEq

/-- The two bounce buffers behind `sm_sharemem_in_base` and
`sm_sharemem_out_base`, byte by byte, and the trace of the transfers and
monitor calls made so far. -/
structure sm_world where
  sharemem_in : List Nat
  sharemem_out : List Nat
  trace : List sm_event
deriving DecidableEq

/-- Modelled from the spec: the secure monitor behind `arm_smccc_smc`, an
external collaborator: for the eight register arguments and the two shared
buffers it gives the value of `res.a0` and the content of the two buffers
after the call. -/
abbrev secure_monitor : Type := List Nat → List Nat → List Nat → Nat × List Nat × List Nat

/-- Modelled from the spec: `memcpy(dest, src, n)` replaces the first `n` bytes
of `dest` by the first `n` bytes of `src`. -/
def memcpy (dest src : List Nat) (n : Nat) : List Nat := src.take n ++ dest.drop n

/-- The bytes that an event moves through a shared buffer. -/
def sm_event.bytes : sm_event → Nat
  | sm_event.smc _ => 0
  | sm_event.memcpy_from_out n => n
  | sm_event.memcpy_to_in n => n

def __meson_sm_call (monitor : secure_monitor) (w : sm_world) (data : meson_sm_data) :
    meson_sm_data × sm_world :=
  let args := [data.cmd, data.arg0, data.arg1, data.arg2, data.arg3, data.arg4, 0, 0]
  let res := monitor args w.sharemem_in w.sharemem_out
  ({ data with ret := to_u32 res.1 },
    ⟨res.2.1, res.2.2, w.trace ++ [sm_event.smc args]⟩)

def meson_sm_call (monitor : secure_monitor) (w : sm_world)
    (cmd arg0 arg1 arg2 arg3 arg4 : Nat) : Nat × sm_world :=
  let data : meson_sm_data := ⟨cmd, arg0, arg1, arg2, arg3, arg4, 0⟩
  let r := __meson_sm_call monitor w data
  (r.1.ret, r.2)

/-- The result is the return value, the buffer of the caller and the world. -/
def meson_sm_call_read (monitor : secure_monitor) (w : sm_world) (buffer : List Nat)
    (cmd arg0 arg1 arg2 arg3 arg4 : Nat) : Nat × List Nat × sm_world :=
  let r := meson_sm_call monitor w cmd arg0 arg1 arg2 arg3 arg4
  let size := r.1
  if size = 0 ∨ size > SM_MEM_SIZE then
    (int_to_u32 (-EINVAL), buffer, r.2)
  else
    (size, memcpy buffer r.2.sharemem_out size,
      { r.2 with trace := r.2.trace ++ [sm_event.memcpy_from_out size] })

/-- The result is the return value and the world. -/
def meson_sm_call_write (monitor : secure_monitor) (w : sm_world) (buffer : List Nat)
    (b_size cmd arg0 arg1 arg2 arg3 arg4 : Nat) : Nat × sm_world :=
  if b_size > SM_MEM_SIZE then
    (int_to_u32 (-EINVAL), w)
  else
    let w1 : sm_world :=
      { w with
        sharemem_in := memcpy w.sharemem_in buffer b_size
        trace := w.trace ++ [sm_event.memcpy_to_in b_size] }
    let r := meson_sm_call monitor w1 cmd arg0 arg1 arg2 arg3 arg4
    let size := r.1
    if size = 0 then
      (int_to_u32 (-EINVAL), r.2)
    else
      (size, r.2)

/-- Shared buffers of four bytes each and an empty trace. -/
def world_4 : sm_world := ⟨[0, 0, 0, 0], [9, 9, 9, 9], []⟩

/-- A monitor that answers every call with 3 and puts the bytes 1, 2, 3 at the
start of the output buffer. -/
def monitor_3 : secure_monitor :=
  fun _ sharemem_in sharemem_out => (3, sharemem_in, memcpy sharemem_out [1, 2, 3] 3)

/-! ## Lemmas on the table lookup -/

theorem get_from_of_not_mem (l : List Int) (h : Int) (i : Nat) (hn : h ∉ l) :
    meson_get_gic_irq_from l h i = -1 := by
  induction l generalizing i with
  | nil => rfl
  | cons x rest ih =>
    have hx : x ≠ h := fun e => hn (by simp [e])
    have hr : h ∉ rest := fun m => hn (by simp [m])
    simp [meson_get_gic_irq_from, hx, ih _ hr]

theorem get_from_lowest (l : List Int) (h : Int) (i s : Nat)
    (hs : l[s]? = some h) (hlow : ∀ j, j < s → l[j]? ≠ some h) :
    meson_get_gic_irq_from l h i = ((i + s : Nat) : Int) := by
  induction l generalizing i s with
  | nil => simp at hs
  | cons x rest ih =>
    cases s with
    | zero =>
      simp at hs
      simp [meson_get_gic_irq_from, hs]
    | succ s =>
      have hx : x ≠ h := fun e => hlow 0 (Nat.succ_pos s) (by simp [e])
      have hs2 : rest[s]? = some h := by simpa using hs
      have hlow2 : ∀ j, j < s → rest[j]? ≠ some h := fun j hj => by
        simpa using hlow (j + 1) (Nat.succ_lt_succ hj)
      simp only [meson_get_gic_irq_from, if_neg hx]
      rw [ih (i + 1) s hs2 hlow2]
      congr 1
      omega

theorem get_from_of_mem (l : List Int) (h : Int) (i : Nat) (hm : h ∈ l) :
    ∃ s : Nat, l[s]? = some h ∧ (∀ j, j < s → l[j]? ≠ some h) ∧
      meson_get_gic_irq_from l h i = ((i + s : Nat) : Int) := by
  induction l generalizing i with
  | nil => simp at hm
  | cons x rest ih =>
    by_cases hx : x = h
    · exact ⟨0, by simp [hx], fun j hj => absurd hj (Nat.not_lt_zero j),
        by simp [meson_get_gic_irq_from, hx]⟩
    · have hr : h ∈ rest := by
        rcases List.mem_cons.mp hm with e | m
        · exact absurd e.symm hx
        · exact m
      obtain ⟨s, hs, hlow, hv⟩ := ih (i + 1) hr
      refine ⟨s + 1, by simpa using hs, ?_, ?_⟩
      · intro j hj
        cases j with
        | zero => simpa using hx
        | succ j => simpa using hlow j (Nat.lt_of_succ_lt_succ hj)
      · simp only [meson_get_gic_irq_from, if_neg hx, hv]
        congr 1
        omega

theorem get_from_neg_iff (l : List Int) (h : Int) (i : Nat) :
    meson_get_gic_irq_from l h i < 0 ↔ h ∉ l := by
  constructor
  · intro hlt hm
    obtain ⟨s, _, _, hv⟩ := get_from_of_mem l h i hm
    rw [hv] at hlt
    omega
  · intro hn
    rw [get_from_of_not_mem l h i hn]
    decide

theorem get_gic_irq_neg_iff (pc : meson_pinctrl) (h : Int) :
    meson_get_gic_irq pc h < 0 ↔ h ∉ pc.irq_map :=
  get_from_neg_iff pc.irq_map h 0

theorem get_gic_irq_lowest (pc : meson_pinctrl) (h : Int) (s : Nat)
    (hs : pc.irq_map[s]? = some h) (hlow : ∀ j, j < s → pc.irq_map[j]? ≠ some h) :
    meson_get_gic_irq pc h = (s : Int) := by
  have := get_from_lowest pc.irq_map h 0 s hs hlow
  simpa [meson_get_gic_irq] using this

theorem get_gic_irq_of_mem (pc : meson_pinctrl) (h : Int) (hm : h ∈ pc.irq_map) :
    ∃ s : Nat, pc.irq_map[s]? = some h ∧ (∀ j, j < s → pc.irq_map[j]? ≠ some h) ∧
      meson_get_gic_irq pc h = (s : Int) := by
  obtain ⟨s, h1, h2, h3⟩ := get_from_of_mem pc.irq_map h 0 hm
  exact ⟨s, h1, h2, by simpa [meson_get_gic_irq] using h3⟩

theorem map_gic_irq_full (get_bank : bank_lookup) (pc : meson_pinctrl) (hwirq : Nat)
    (hfull : IRQ_FREE ∉ pc.irq_map) (hbank : (get_bank hwirq).1 = 0) :
    meson_map_gic_irq get_bank pc hwirq = (-ENOSPC, pc) := by
  have hneg : meson_get_gic_irq pc IRQ_FREE < 0 := (get_gic_irq_neg_iff pc IRQ_FREE).2 hfull
  simp [meson_map_gic_irq, hbank, hneg]

theorem not_mem_of_slots (l : List Int) (h : Int)
    (hfree : ∀ s, s < l.length → l[s]? ≠ some h) : h ∉ l := by
  intro hm
  obtain ⟨s, hs, e⟩ := List.getElem_of_mem hm
  exact hfree s hs (by rw [List.getElem?_eq_getElem hs, e])

theorem single_bank_ret (bank : meson_bank) (count h : Nat) :
    (single_bank bank count h).1 ≤ 0 := by
  unfold single_bank
  split <;> simp [EINVAL]

theorem single_bank_pins (bank : meson_bank) (count h : Nat)
    (hfit : bank.first + count ≤ 2 ^ 31) (hres : (single_bank bank count h).1 = 0) :
    h < 2 ^ 31 := by
  unfold single_bank at hres
  split at hres
  · omega
  · simp [EINVAL] at hres

/-! ## Lemmas on the register access -/

theorem update_bits_other (map : regmap) (reg mask val r : Nat) (h : r ≠ reg) :
    regmap_update_bits map reg mask val r = map r := by
  simp [regmap_update_bits, Function.update, h]

theorem update_bits_same (map : regmap) (reg mask val : Nat) :
    regmap_update_bits map reg mask val reg
      = (to_u32 (map reg) &&& (0xffffffff ^^^ to_u32 mask)) ||| (to_u32 val &&& to_u32 mask) := by
  simp [regmap_update_bits, Function.update]

theorem update_bits_testBit (map : regmap) (reg mask val i : Nat) :
    (regmap_update_bits map reg mask val reg).testBit i
      = (decide (i < 32) && (if mask.testBit i then val.testBit i else (map reg).testBit i)) := by
  rw [update_bits_same]
  have hones : (0xffffffff : Nat) = 2 ^ 32 - 1 := by norm_num
  simp only [to_u32, hones, Nat.testBit_or, Nat.testBit_and, Nat.testBit_xor,
    Nat.testBit_mod_two_pow, Nat.testBit_two_pow_sub_one]
  by_cases h32 : i < 32 <;> cases hm : mask.testBit i <;> cases hv : val.testBit i <;>
    cases ho : (map reg).testBit i <;> simp [h32]

theorem BIT_testBit (nr i : Nat) : (BIT nr).testBit i = decide (i = nr) := by
  simp only [BIT, Nat.one_shiftLeft, Nat.testBit_two_pow]
  by_cases h : i = nr
  · simp [h]
  · have : ¬ nr = i := fun e => h e.symm
    simp [h, this]

theorem to_u32_testBit (v i : Nat) :
    (to_u32 v).testBit i = (decide (i < 32) && v.testBit i) := by
  unfold to_u32
  exact Nat.testBit_mod_two_pow v 32 i

/-- The value that `meson_irq_set_type` computes in `val`, bit by bit. -/
theorem edge_pol_val_testBit (E L : Prop) [Decidable E] [Decidable L] (s i : Nat) :
    (if L then to_u32 ((if E then to_u32 (0 ||| REG_EDGE_POL_EDGE s) else 0)
        ||| REG_EDGE_POL_LOW s)
      else (if E then to_u32 (0 ||| REG_EDGE_POL_EDGE s) else 0)).testBit i
      = (decide (i < 32) && (decide (i = s ∧ E) || decide (i = 16 + s ∧ L))) := by
  by_cases hE : E <;> by_cases hL : L <;> by_cases h32 : i < 32 <;>
    by_cases h1 : i = s <;> by_cases h2 : i = 16 + s <;>
    simp [hE, hL, h32, h1, h2, to_u32_testBit, REG_EDGE_POL_EDGE, REG_EDGE_POL_LOW,
      Nat.testBit_or, BIT_testBit]

theorem edge_pol_mask_testBit (s i : Nat) :
    (REG_EDGE_POL_MASK s).testBit i = (decide (i = s) || decide (i = 16 + s)) := by
  simp [REG_EDGE_POL_MASK, Nat.testBit_or, BIT_testBit]

theorem set_type_reg_testBit (parent : parent_ops) (pc : meson_pinctrl) (data : irq_data)
    (type s i : Nat) (hidx : meson_get_gic_irq pc (to_int data.hwirq) = (s : Int)) :
    ((meson_irq_set_type parent pc data type).2.1.reg_irq REG_EDGE_POL).testBit i
      = (decide (i < 32) &&
          (if i = s ∨ i = 16 + s then
            (decide (i = s ∧ (type = IRQ_TYPE_EDGE_FALLING ∨ type = IRQ_TYPE_EDGE_RISING)) ||
             decide (i = 16 + s ∧ (type = IRQ_TYPE_EDGE_FALLING ∨ type = IRQ_TYPE_LEVEL_LOW)))
           else (pc.reg_irq REG_EDGE_POL).testBit i)) := by
  have hneg : ¬ ((s : Int) < 0) := by omega
  simp only [meson_irq_set_type, hidx, hneg, if_false, Int.toNat_ofNat]
  rw [update_bits_testBit, edge_pol_val_testBit, edge_pol_mask_testBit]
  by_cases h32 : i < 32 <;> by_cases h1 : i = s <;> by_cases h2 : i = 16 + s <;>
    simp [h32, h1, h2]

theorem map_gic_irq_at (get_bank : bank_lookup) (pc : meson_pinctrl) (hwirq s : Nat)
    (hbank : (get_bank hwirq).1 = 0)
    (hslot : pc.irq_map[s]? = some IRQ_FREE)
    (hlow : ∀ j, j < s → pc.irq_map[j]? ≠ some IRQ_FREE) :
    meson_map_gic_irq get_bank pc hwirq =
      ((s : Int),
        { pc with
          irq_map := pc.irq_map.set s (to_int hwirq)
          reg_irq := regmap_update_bits
            (regmap_update_bits pc.reg_irq (if s < 4 then REG_GPIO_SEL0 else REG_GPIO_SEL1)
              (0xff <<< ((s % 4) * 8)) (mux_value (get_bank hwirq).2 hwirq <<< ((s % 4) * 8)))
            REG_FILTER (0xf <<< (s * 4)) (7 <<< (s * 4)) }) := by
  have hidx := get_gic_irq_lowest pc IRQ_FREE s hslot hlow
  have hneg : ¬ ((s : Int) < 0) := by omega
  have h4 : ((s : Int) < 4) ↔ s < 4 := by omega
  simp only [meson_map_gic_irq, hbank, hidx, hneg, if_false, Int.toNat_ofNat, ne_eq,
    not_true_eq_false, h4]

theorem reg_byte_testBit (v k i : Nat) :
    (reg_byte v k).testBit i = (decide (i < 8) && v.testBit (8 * k + i)) := by
  simp only [reg_byte, Nat.testBit_mod_two_pow, Nat.testBit_shiftRight]

theorem byte_mask_testBit (k j : Nat) :
    ((0xff : Nat) <<< (k * 8)).testBit j = (decide (k * 8 ≤ j) && decide (j < k * 8 + 8)) := by
  have h : (0xff : Nat) = 2 ^ 8 - 1 := by norm_num
  rw [h, Nat.testBit_shiftLeft, Nat.testBit_two_pow_sub_one]
  by_cases h1 : k * 8 ≤ j <;> by_cases h2 : j < k * 8 + 8 <;> simp [h1, h2] <;> omega

/-- Effect of the masked write of `meson_map_gic_irq` on the bytes of a
selection register. -/
theorem sel_update_byte (map : regmap) (reg val k c : Nat) (hk : k < 4) (hc : c < 4) :
    reg_byte (regmap_update_bits map reg (0xff <<< (k * 8)) (val <<< (k * 8)) reg) c
      = if c = k then val % 2 ^ 8 else reg_byte (map reg) c := by
  apply Nat.eq_of_testBit_eq
  intro i
  rw [reg_byte_testBit, update_bits_testBit, byte_mask_testBit]
  by_cases hck : c = k
  · subst hck
    simp only [if_true, Nat.testBit_mod_two_pow, Nat.testBit_shiftLeft]
    by_cases h8 : i < 8
    · have e1 : c * 8 ≤ 8 * c + i := by omega
      have e2 : 8 * c + i < c * 8 + 8 := by omega
      have e3 : 8 * c + i < 32 := by omega
      have e4 : 8 * c + i - c * 8 = i := by omega
      simp [h8, e1, e2, e3, e4]
    · simp [h8]
  · simp only [if_neg hck, reg_byte_testBit]
    by_cases h8 : i < 8
    · have e3 : 8 * c + i < 32 := by omega
      have e5 : ¬ (k * 8 ≤ 8 * c + i ∧ 8 * c + i < k * 8 + 8) := by omega
      by_cases e1 : k * 8 ≤ 8 * c + i <;> by_cases e2 : 8 * c + i < k * 8 + 8
      · exact absurd ⟨e1, e2⟩ e5
      · simp [h8, e1, e2, e3]
      · simp [h8, e1, e2, e3]
      · simp [h8, e1, e2, e3]
    · simp [h8]

theorem mux_value_of_le (bank : meson_bank) (hwirq : Nat) (h : bank.first ≤ hwirq) :
    mux_value bank hwirq = (bank.irq + hwirq - bank.first) % 2 ^ 32 := by
  unfold mux_value
  have e : ((bank.irq : Int) + (hwirq : Int) - (bank.first : Int))
      = ((bank.irq + hwirq - bank.first : Nat) : Int) := by omega
  rw [e]
  have e2 : (((bank.irq + hwirq - bank.first : Nat) : Int) % 2 ^ 32)
      = (((bank.irq + hwirq - bank.first) % 2 ^ 32 : Nat) : Int) := by
    push_cast
    rfl
  rw [e2, Int.toNat_ofNat]

/-! ## Lemmas on the operations -/

theorem set_type_unbound (parent : parent_ops) (pc : meson_pinctrl) (data : irq_data)
    (type : Nat) (h : to_int data.hwirq ∉ pc.irq_map) :
    meson_irq_set_type parent pc data type = (-EINVAL, pc, []) := by
  have hneg := (get_gic_irq_neg_iff pc (to_int data.hwirq)).2 h
  simp [meson_irq_set_type, hneg]

theorem set_type_bound (parent : parent_ops) (pc : meson_pinctrl) (data : irq_data)
    (type : Nat) (h : to_int data.hwirq ∈ pc.irq_map) :
    (meson_irq_set_type parent pc data type).1
        = parent.irq_chip_set_type_parent data (normalize_for_parent type) ∧
      (meson_irq_set_type parent pc data type).2.2
        = [kernel_call.irq_chip_set_type_parent data (normalize_for_parent type)] := by
  have hneg : ¬ meson_get_gic_irq pc (to_int data.hwirq) < 0 := fun hlt =>
    (get_gic_irq_neg_iff pc (to_int data.hwirq)).1 hlt h
  simp [meson_irq_set_type, hneg, normalize_for_parent]

theorem free_loop_unbound (get : Nat → irq_data) (irq : Nat) (pc : meson_pinctrl) (i k : Nat)
    (h : ∀ j, i ≤ j → j < i + k → to_int (get (irq + j)).hwirq ∉ pc.irq_map) :
    meson_irq_domain_free_loop get irq i k pc = pc := by
  induction k generalizing i with
  | zero => rfl
  | succ k ih =>
    have hneg := (get_gic_irq_neg_iff pc (to_int (get (irq + i)).hwirq)).2
      (h i (Nat.le_refl i) (by omega))
    simp only [meson_irq_domain_free_loop, hneg, if_true]
    exact ih (i + 1) (fun j h1 h2 => h j (by omega) (by omega))

theorem pool_inv_congr (l : List Int) (A B : Int → Prop) (h : ∀ q, A q ↔ B q)
    (hinv : pool_inv l A) : pool_inv l B :=
  ⟨hinv.1, fun p => (h p).symm.trans (hinv.2 p)⟩

theorem bind_inv (l : List Int) (A : Int → Prop) (s : Nat) (p : Int)
    (hinv : pool_inv l A) (hs : l[s]? = some IRQ_FREE) (hp : p ≠ IRQ_FREE) (hnew : p ∉ l) :
    pool_inv (l.set s p) (fun q => A q ∨ q = p) := by
  have hlen : s < l.length := (List.getElem?_eq_some_iff.1 hs).1
  constructor
  · intro i j x hi hj hx
    rw [List.getElem?_set] at hi hj
    by_cases his : s = i <;> by_cases hjs : s = j
    · omega
    · exfalso
      simp only [his, if_true] at hi
      simp only [hjs, if_false] at hj
      have hil : i < l.length := by omega
      simp only [hil, if_true] at hi
      have : x = p := (Option.some.inj hi).symm
      exact hnew (this ▸ List.getElem?_mem hj)
    · exfalso
      simp only [hjs, if_true] at hj
      simp only [his, if_false] at hi
      have hjl : j < l.length := by omega
      simp only [hjl, if_true] at hj
      have : x = p := (Option.some.inj hj).symm
      exact hnew (this ▸ List.getElem?_mem hi)
    · simp only [his, if_false] at hi
      simp only [hjs, if_false] at hj
      exact hinv.1 i j x hi hj hx
  · intro q
    constructor
    · rintro (hq | rfl)
      · obtain ⟨hq1, hq2⟩ := (hinv.2 q).1 hq
        refine ⟨hq1, ?_⟩
        obtain ⟨j, hj⟩ := List.getElem?_of_mem hq2
        have hjs : s ≠ j := by
          intro e
          rw [← e, hs] at hj
          exact hq1 (Option.some.inj hj).symm
        exact List.getElem?_mem (by rw [List.getElem?_set_ne hjs]; exact hj)
      · exact ⟨hp, List.mem_set l s hlen q⟩
    · rintro ⟨hq1, hq2⟩
      rcases List.mem_or_eq_of_mem_set hq2 with h | h
      · exact Or.inl ((hinv.2 q).2 ⟨hq1, h⟩)
      · exact Or.inr h

theorem unbind_inv (l : List Int) (A : Int → Prop) (s : Nat) (p : Int)
    (hinv : pool_inv l A) (hs : l[s]? = some p) :
    pool_inv (l.set s IRQ_FREE) (fun q => A q ∧ q ≠ p) := by
  have hlen : s < l.length := (List.getElem?_eq_some_iff.1 hs).1
  have hold : ∀ (i : Nat) (x : Int), (l.set s IRQ_FREE)[i]? = some x → x ≠ IRQ_FREE →
      s ≠ i ∧ l[i]? = some x := by
    intro i x hi hx
    rw [List.getElem?_set] at hi
    by_cases his : s = i
    · exfalso
      simp only [his, if_true] at hi
      have hil : i < l.length := by omega
      simp only [hil, if_true] at hi
      exact hx (Option.some.inj hi).symm
    · simp only [his, if_false] at hi
      exact ⟨his, hi⟩
  constructor
  · intro i j x hi hj hx
    exact hinv.1 i j x (hold i x hi hx).2 (hold j x hj hx).2 hx
  · intro q
    constructor
    · rintro ⟨hq, hqp⟩
      obtain ⟨hq1, hq2⟩ := (hinv.2 q).1 hq
      refine ⟨hq1, ?_⟩
      obtain ⟨j, hj⟩ := List.getElem?_of_mem hq2
      have hjs : s ≠ j := by
        intro e
        rw [← e, hs] at hj
        exact hqp (Option.some.inj hj).symm
      exact List.getElem?_mem (by rw [List.getElem?_set_ne hjs]; exact hj)
    · rintro ⟨hq1, hq2⟩
      obtain ⟨j, hj⟩ := List.getElem?_of_mem hq2
      obtain ⟨hjs, hjl⟩ := hold j q hj hq1
      refine ⟨(hinv.2 q).2 ⟨hq1, List.getElem?_mem hjl⟩, ?_⟩
      intro e
      exact hjs (hinv.1 s j q (e ▸ hs) hjl hq1)

theorem to_int_of_lt (h : Nat) (hlt : h < 2 ^ 31) : to_int h = (h : Int) := by
  unfold to_int
  have e : h % 2 ^ 32 = h := Nat.mod_eq_of_lt (by omega)
  rw [e, if_pos hlt]

theorem pins_bound_by_append (a b : List kernel_call) :
    pins_bound_by (a ++ b) = pins_bound_by a ++ pins_bound_by b := by
  induction a with
  | nil => rfl
  | cons c rest ih =>
    cases c <;> simp [pins_bound_by, ih]

theorem map_gic_irq_inv (get_bank : bank_lookup) (pc : meson_pinctrl) (hwirq : Nat)
    (A : Int → Prop)
    (hret : ∀ h, (get_bank h).1 ≤ 0) (hpins : ∀ h, (get_bank h).1 = 0 → h < 2 ^ 31)
    (hinv : pool_inv pc.irq_map A)
    (hfresh : (get_bank hwirq).1 = 0 → to_int hwirq ∉ pc.irq_map) :
    ((meson_map_gic_irq get_bank pc hwirq).1 < 0 ∧ (meson_map_gic_irq get_bank pc hwirq).2 = pc) ∨
    (¬ (meson_map_gic_irq get_bank pc hwirq).1 < 0 ∧ hwirq < 2 ^ 31 ∧
      pool_inv (meson_map_gic_irq get_bank pc hwirq).2.irq_map (fun q => A q ∨ q = to_int hwirq) ∧
      (∀ q, q ∈ (meson_map_gic_irq get_bank pc hwirq).2.irq_map →
        q ∈ pc.irq_map ∨ q = to_int hwirq) ∧
      (meson_map_gic_irq get_bank pc hwirq).2.irq_map.length = pc.irq_map.length) := by
  by_cases hb : (get_bank hwirq).1 = 0
  · by_cases hfree : IRQ_FREE ∈ pc.irq_map
    · right
      obtain ⟨s, hs, hlow, -⟩ := get_gic_irq_of_mem pc IRQ_FREE hfree
      have hlt := hpins hwirq hb
      have hne : to_int hwirq ≠ IRQ_FREE := by
        rw [to_int_of_lt hwirq hlt]
        unfold IRQ_FREE
        omega
      rw [map_gic_irq_at get_bank pc hwirq s hb hs hlow]
      refine ⟨by simp, hlt, bind_inv _ A s _ hinv hs hne (hfresh hb), ?_, by simp⟩
      intro q hq
      exact List.mem_or_eq_of_mem_set hq
    · left
      rw [map_gic_irq_full get_bank pc hwirq hfree hb]
      exact ⟨by simp [ENOSPC], rfl⟩
  · left
    have hlt : (get_bank hwirq).1 < 0 := lt_of_le_of_ne (hret hwirq) hb
    simp [meson_map_gic_irq, hb, hlt]

theorem alloc_loop_inv (get_bank : bank_lookup) (parent : parent_ops)
    (irq nr_irqs hwirq : Nat) (A : Int → Prop)
    (hret : ∀ h, (get_bank h).1 ≤ 0) (hpins : ∀ h, (get_bank h).1 = 0 → h < 2 ^ 31)
    (k i : Nat) (pc : meson_pinctrl) (log : List kernel_call)
    (hinv : pool_inv pc.irq_map (fun q => A q ∨ q ∈ pins_bound_by log))
    (hfresh : ∀ j, i ≤ j → j < i + k → (get_bank (hwirq + j)).1 = 0 →
      to_int (hwirq + j) ∉ pc.irq_map) :
    pool_inv (meson_irq_domain_alloc_loop get_bank parent irq nr_irqs hwirq i k pc log).2.1.irq_map
      (fun q => A q ∨
        q ∈ pins_bound_by
          (meson_irq_domain_alloc_loop get_bank parent irq nr_irqs hwirq i k pc log).2.2) ∧
    (meson_irq_domain_alloc_loop get_bank parent irq nr_irqs hwirq i k pc log).2.1.irq_map.length
      = pc.irq_map.length := by
  induction k generalizing i pc log with
  | zero => exact ⟨hinv, rfl⟩
  | succ k ih =>
    rcases map_gic_irq_inv get_bank pc (hwirq + i) _ hret hpins hinv
        (hfresh i (Nat.le_refl i) (by omega)) with ⟨hneg, hpc⟩ | ⟨hpos, hlt, hinv2, hsub, hlen⟩
    · simp only [meson_irq_domain_alloc_loop, hneg, if_true, hpc]
      exact ⟨hinv, trivial⟩
    · simp only [meson_irq_domain_alloc_loop, hpos, if_false]
      have hstep := ih (i + 1) (meson_map_gic_irq get_bank pc (hwirq + i)).2
        (log ++ [kernel_call.irq_domain_set_hwirq_and_chip (irq + i) (hwirq + i),
          kernel_call.irq_domain_alloc_irqs_parent (irq + i) nr_irqs
            (gic_data_for (meson_map_gic_irq get_bank pc (hwirq + i)).2
              (meson_map_gic_irq get_bank pc (hwirq + i)).1.toNat)])
        (by
          apply pool_inv_congr _ _ _ _ hinv2
          intro q
          simp only [pins_bound_by_append, pins_bound_by, List.mem_append, List.mem_singleton]
          tauto)
        (by
          intro j h1 h2 hb hmem
          rcases hsub _ hmem with h | h
          · exact hfresh j (by omega) (by omega) hb h
          · rw [to_int_of_lt _ (hpins _ hb), to_int_of_lt _ hlt] at h
            omega)
      exact ⟨hstep.1, hstep.2.trans hlen⟩

theorem free_loop_inv (get : Nat → irq_data) (irq : Nat) (k i : Nat) (pc : meson_pinctrl)
    (A : Int → Prop) (hinv : pool_inv pc.irq_map A) :
    pool_inv (meson_irq_domain_free_loop get irq i k pc).irq_map
      (fun q => A q ∧ ∀ j, i ≤ j → j < i + k → q ≠ to_int (get (irq + j)).hwirq) ∧
    (meson_irq_domain_free_loop get irq i k pc).irq_map.length = pc.irq_map.length := by
  induction k generalizing i pc A with
  | zero =>
    refine ⟨pool_inv_congr _ _ _ ?_ hinv, rfl⟩
    intro q
    constructor
    · intro h
      exact ⟨h, fun j h1 h2 => by omega⟩
    · intro h
      exact h.1
  | succ k ih =>
    have hcongr : ∀ q, ((A q ∧ q ≠ to_int (get (irq + i)).hwirq) ∧
          ∀ j, i + 1 ≤ j → j < i + 1 + k → q ≠ to_int (get (irq + j)).hwirq) ↔
        (A q ∧ ∀ j, i ≤ j → j < i + (k + 1) → q ≠ to_int (get (irq + j)).hwirq) := by
      intro q
      constructor
      · rintro ⟨⟨h1, h2⟩, h3⟩
        refine ⟨h1, fun j hj1 hj2 => ?_⟩
        by_cases e : j = i
        · rw [e]; exact h2
        · exact h3 j (by omega) (by omega)
      · rintro ⟨h1, h2⟩
        exact ⟨⟨h1, h2 i (Nat.le_refl i) (by omega)⟩, fun j hj1 hj2 => h2 j (by omega) (by omega)⟩
    by_cases hm : to_int (get (irq + i)).hwirq ∈ pc.irq_map
    · obtain ⟨s, hs, -, hidx⟩ := get_gic_irq_of_mem pc _ hm
      have hneg : ¬ ((s : Int) < 0) := by omega
      simp only [meson_irq_domain_free_loop, hidx, hneg, if_false, Int.toNat_ofNat]
      have hstep := ih (i + 1) { pc with irq_map := pc.irq_map.set s IRQ_FREE }
        (fun q => A q ∧ q ≠ to_int (get (irq + i)).hwirq) (unbind_inv _ A s _ hinv hs)
      exact ⟨pool_inv_congr _ _ _ hcongr hstep.1, hstep.2.trans (by simp)⟩
    · have hneg := (get_gic_irq_neg_iff pc _).2 hm
      simp only [meson_irq_domain_free_loop, hneg, if_true]
      have hinv2 : pool_inv pc.irq_map (fun q => A q ∧ q ≠ to_int (get (irq + i)).hwirq) := by
        apply pool_inv_congr _ _ _ _ hinv
        intro q
        constructor
        · intro h
          refine ⟨h, fun e => hm (e ▸ ((hinv.2 q).1 h).2)⟩
        · intro h
          exact h.1
      have hstep := ih (i + 1) pc _ hinv2
      exact ⟨pool_inv_congr _ _ _ hcongr hstep.1, hstep.2⟩

theorem track_op_inv (get_bank : bank_lookup) (parent : parent_ops)
    (hret : ∀ h, (get_bank h).1 ≤ 0) (hpins : ∀ h, (get_bank h).1 = 0 → h < 2 ^ 31)
    (t : tracked) (op : pool_op)
    (hinv : pool_inv t.pc.irq_map (fun q => q ∈ t.allocated))
    (hfresh : op_fresh t.pc op) :
    pool_inv (track_op get_bank parent t op).pc.irq_map
        (fun q => q ∈ (track_op get_bank parent t op).allocated) ∧
      (track_op get_bank parent t op).pc.irq_map.length = t.pc.irq_map.length := by
  cases op with
  | allocate irq nr_irqs arg =>
    by_cases hc : arg.param_count = 2
    · have h := alloc_loop_inv get_bank parent irq nr_irqs (arg.cell 0)
        (fun q => q ∈ t.allocated) hret hpins nr_irqs 0 t.pc []
        (pool_inv_congr _ _ _ (fun q => by simp [pins_bound_by]) hinv)
        (fun j _ h2 _ => hfresh j (by omega))
      simp only [track_op, meson_irq_domain_alloc, hc, ne_eq, not_true_eq_false, if_false]
      refine ⟨pool_inv_congr _ _ _ ?_ h.1, h.2⟩
      intro q
      simp only [List.mem_append]
    · simp only [track_op, meson_irq_domain_alloc, hc, ne_eq, not_false_eq_true, if_true,
        pins_bound_by, List.append_nil]
      exact ⟨hinv, trivial⟩
  | free get irq nr_irqs =>
    have h := free_loop_inv get irq nr_irqs 0 t.pc (fun q => q ∈ t.allocated) hinv
    simp only [track_op, meson_irq_domain_free]
    refine ⟨pool_inv_congr _ _ _ ?_ h.1, h.2⟩
    intro q
    simp only [List.mem_filter, decide_eq_true_eq, pins_freed_by, List.mem_map, List.mem_range,
      not_exists, not_and]
    constructor
    · rintro ⟨h1, h2⟩
      exact ⟨h1, fun j hj e => h2 j (Nat.zero_le j) (by omega) e.symm⟩
    · rintro ⟨h1, h2⟩
      exact ⟨h1, fun j _ hj e => h2 j (by omega) e.symm⟩

theorem track_ops_inv (get_bank : bank_lookup) (parent : parent_ops)
    (hret : ∀ h, (get_bank h).1 ≤ 0) (hpins : ∀ h, (get_bank h).1 = 0 → h < 2 ^ 31)
    (ops : List pool_op) (t : tracked)
    (hinv : pool_inv t.pc.irq_map (fun q => q ∈ t.allocated))
    (hfresh : ops_fresh get_bank parent t ops) :
    pool_inv (track_ops get_bank parent t ops).pc.irq_map
        (fun q => q ∈ (track_ops get_bank parent t ops).allocated) ∧
      (track_ops get_bank parent t ops).pc.irq_map.length = t.pc.irq_map.length := by
  induction ops generalizing t with
  | nil => exact ⟨hinv, rfl⟩
  | cons op rest ih =>
    obtain ⟨h1, h2⟩ := track_op_inv get_bank parent hret hpins t op hinv hfresh.1
    obtain ⟨h3, h4⟩ := ih (track_op get_bank parent t op) h1 hfresh.2
    exact ⟨h3, h4.trans h2⟩

theorem ops_fresh_take (get_bank : bank_lookup) (parent : parent_ops)
    (ops : List pool_op) (t : tracked) (k : Nat)
    (hfresh : ops_fresh get_bank parent t ops) :
    ops_fresh get_bank parent t (ops.take k) := by
  induction ops generalizing t k with
  | nil => simpa using hfresh
  | cons op rest ih =>
    cases k with
    | zero => trivial
    | succ k => exact ⟨hfresh.1, ih _ k hfresh.2⟩

theorem pool_inv_all_free (n : Nat) :
    pool_inv (List.replicate n IRQ_FREE) (fun q => q ∈ ([] : List Int)) := by
  constructor
  · intro i j x hi _ hx
    exfalso
    have := List.getElem?_mem hi
    exact hx (List.eq_of_mem_replicate this)
  · intro p
    constructor
    · intro h
      simp at h
    · rintro ⟨h1, h2⟩
      exact absurd (List.eq_of_mem_replicate h2) h1

theorem alloc_one_at (get_bank : bank_lookup) (parent : parent_ops) (pc : meson_pinctrl)
    (irq hwirq s : Nat) (arg : irq_fwspec)
    (harg : arg.param_count = 2) (hpin : arg.cell 0 = hwirq)
    (hbank : (get_bank hwirq).1 = 0)
    (hslot : pc.irq_map[s]? = some IRQ_FREE)
    (hlow : ∀ j, j < s → pc.irq_map[j]? ≠ some IRQ_FREE) :
    (meson_irq_domain_alloc get_bank parent pc irq 1 arg).1 = 0 ∧
    (meson_irq_domain_alloc get_bank parent pc irq 1 arg).2.1
      = (meson_map_gic_irq get_bank pc hwirq).2 ∧
    (meson_irq_domain_alloc get_bank parent pc irq 1 arg).2.1.irq_map
      = pc.irq_map.set s (to_int hwirq) := by
  have hmap := map_gic_irq_at get_bank pc hwirq s hbank hslot hlow
  have hneg : ¬ ((s : Int) < 0) := by omega
  simp only [meson_irq_domain_alloc, harg, ne_eq, not_true_eq_false, if_false, hpin,
    meson_irq_domain_alloc_loop, Nat.add_zero, hmap, hneg]
  exact ⟨trivial, trivial, trivial⟩

theorem free_one_at (get : Nat → irq_data) (pc : meson_pinctrl) (irq s : Nat)
    (hs : pc.irq_map[s]? = some (to_int (get irq).hwirq))
    (hlow : ∀ j, j < s → pc.irq_map[j]? ≠ some (to_int (get irq).hwirq)) :
    (meson_irq_domain_free get pc irq 1).1.irq_map = pc.irq_map.set s IRQ_FREE := by
  have hidx := get_gic_irq_lowest pc _ s hs hlow
  have hneg : ¬ ((s : Int) < 0) := by omega
  simp [meson_irq_domain_free, meson_irq_domain_free_loop, hidx, hneg]

theorem set_set_free_eq (l : List Int) (s : Nat) (p : Int) (hs : l[s]? = some IRQ_FREE) :
    (l.set s p).set s IRQ_FREE = l := by
  apply List.ext_getElem?
  intro n
  rw [List.set_set, List.getElem?_set]
  by_cases h : s = n
  · have hlen : s < l.length := (List.getElem?_eq_some_iff.1 hs).1
    simp only [h, if_true]
    rw [← h, if_pos hlen, hs]
  · simp only [h, if_false]

/-! ## The claims -/

/-- C1 (as amended). For every pool size `N`, a bank lookup that follows the
kernel convention (0 or a negative error code) and resolves only pin numbers
that fit an `int`, and every sequence of Allocate and Free calls that starts
from the all-free table and in which no Allocate names a pin that some slot
holds when the call is made: after the first `k` calls of the sequence, for
every `k`, the table has its `N` slots, the number of occupied slots is at
most `N`, no pin is held by two different slots, and the pins held by the
occupied slots are exactly the currently allocated pins (those bound by an
Allocate and not named by a later Free). -/
theorem pool_bijection_fresh (N : Nat) (get_bank : bank_lookup) (parent : parent_ops)
    (pc : meson_pinctrl) (ops : List pool_op) (k : Nat)
    (hinit : pc.irq_map = List.replicate N IRQ_FREE)
    (hret : ∀ h, (get_bank h).1 ≤ 0) (hpins : ∀ h, (get_bank h).1 = 0 → h < 2 ^ 31)
    (hfresh : ops_fresh get_bank parent ⟨pc, []⟩ ops) :
    (track_ops get_bank parent ⟨pc, []⟩ (ops.take k)).pc.num_gic_irqs = N ∧
    (occupied (track_ops get_bank parent ⟨pc, []⟩ (ops.take k)).pc.irq_map).length ≤ N ∧
    (∀ i j : Nat, ∀ x : Int,
      (track_ops get_bank parent ⟨pc, []⟩ (ops.take k)).pc.irq_map[i]? = some x →
      (track_ops get_bank parent ⟨pc, []⟩ (ops.take k)).pc.irq_map[j]? = some x →
      x ≠ IRQ_FREE → i = j) ∧
    (∀ p : Int, p ∈ (track_ops get_bank parent ⟨pc, []⟩ (ops.take k)).allocated ↔
      p ∈ occupied (track_ops get_bank parent ⟨pc, []⟩ (ops.take k)).pc.irq_map) := by
  have h0 : pool_inv (tracked.mk pc []).pc.irq_map (fun q => q ∈ (tracked.mk pc []).allocated) := by
    show pool_inv pc.irq_map (fun q => q ∈ ([] : List Int))
    rw [hinit]
    exact pool_inv_all_free N
  obtain ⟨h1, h2⟩ := track_ops_inv get_bank parent hret hpins (ops.take k) ⟨pc, []⟩ h0
    (ops_fresh_take get_bank parent ops ⟨pc, []⟩ k hfresh)
  have hlen : (track_ops get_bank parent ⟨pc, []⟩ (ops.take k)).pc.irq_map.length = N := by
    rw [h2]
    show pc.irq_map.length = N
    rw [hinit, List.length_replicate]
  refine ⟨hlen, ?_, h1.1, ?_⟩
  · calc (occupied (track_ops get_bank parent ⟨pc, []⟩ (ops.take k)).pc.irq_map).length
        ≤ (track_ops get_bank parent ⟨pc, []⟩ (ops.take k)).pc.irq_map.length :=
          List.length_filter_le _ _
      _ = N := hlen
  · intro p
    refine (h1.2 p).trans ?_
    simp [occupied, List.mem_filter, and_comm]

/-- Witness of C1 (as amended): three lines; pins 10 and 11 are allocated in
one request, pin 10 is freed and allocated again; the state after all three
calls. -/
theorem pool_bijection_fresh_witness :
    (track_ops (single_bank ⟨0, 0⟩ 100) parent_ok ⟨empty_pool 3, []⟩
      (demo_ops.take 3)).pc.num_gic_irqs = 3 ∧
    (occupied (track_ops (single_bank ⟨0, 0⟩ 100) parent_ok ⟨empty_pool 3, []⟩
      (demo_ops.take 3)).pc.irq_map).length ≤ 3 ∧
    (∀ i j : Nat, ∀ x : Int,
      (track_ops (single_bank ⟨0, 0⟩ 100) parent_ok ⟨empty_pool 3, []⟩
        (demo_ops.take 3)).pc.irq_map[i]? = some x →
      (track_ops (single_bank ⟨0, 0⟩ 100) parent_ok ⟨empty_pool 3, []⟩
        (demo_ops.take 3)).pc.irq_map[j]? = some x →
      x ≠ IRQ_FREE → i = j) ∧
    (∀ p : Int,
      p ∈ (track_ops (single_bank ⟨0, 0⟩ 100) parent_ok ⟨empty_pool 3, []⟩
        (demo_ops.take 3)).allocated ↔
      p ∈ occupied (track_ops (single_bank ⟨0, 0⟩ 100) parent_ok ⟨empty_pool 3, []⟩
        (demo_ops.take 3)).pc.irq_map) :=
  pool_bijection_fresh 3 (single_bank ⟨0, 0⟩ 100) parent_ok (empty_pool 3) demo_ops 3
    rfl (single_bank_ret _ _) (fun h => single_bank_pins _ _ h (by decide))
    (by
      refine ⟨?_, trivial, ?_, trivial⟩
      · intro i hi
        have : i = 0 ∨ i = 1 := by omega
        rcases this with rfl | rfl <;> decide
      · intro i hi
        have : i = 0 := by omega
        subst this
        decide)

/-- Counterexample to C1 as stated: with two lines, two Allocate calls for pin
10 both succeed and leave pin 10 in slot 0 and in slot 1. -/
theorem double_allocate_two_slots :
    (meson_irq_domain_alloc (single_bank ⟨0, 0⟩ 100) parent_ok (empty_pool 2) 5 1
        (fwspec_for 10 IRQ_TYPE_EDGE_RISING)).1 = 0 ∧
    (meson_irq_domain_alloc (single_bank ⟨0, 0⟩ 100) parent_ok
        (meson_irq_domain_alloc (single_bank ⟨0, 0⟩ 100) parent_ok (empty_pool 2) 5 1
          (fwspec_for 10 IRQ_TYPE_EDGE_RISING)).2.1 6 1
        (fwspec_for 10 IRQ_TYPE_EDGE_RISING)).1 = 0 ∧
    (track_ops (single_bank ⟨0, 0⟩ 100) parent_ok ⟨empty_pool 2, []⟩
        [pool_op.allocate 5 1 (fwspec_for 10 IRQ_TYPE_EDGE_RISING),
         pool_op.allocate 6 1 (fwspec_for 10 IRQ_TYPE_EDGE_RISING)]).pc.irq_map
      = [10, 10] ∧
    ¬ (∀ i j : Nat, ∀ x : Int,
        (track_ops (single_bank ⟨0, 0⟩ 100) parent_ok ⟨empty_pool 2, []⟩
          [pool_op.allocate 5 1 (fwspec_for 10 IRQ_TYPE_EDGE_RISING),
           pool_op.allocate 6 1 (fwspec_for 10 IRQ_TYPE_EDGE_RISING)]).pc.irq_map[i]? = some x →
        (track_ops (single_bank ⟨0, 0⟩ 100) parent_ok ⟨empty_pool 2, []⟩
          [pool_op.allocate 5 1 (fwspec_for 10 IRQ_TYPE_EDGE_RISING),
           pool_op.allocate 6 1 (fwspec_for 10 IRQ_TYPE_EDGE_RISING)]).pc.irq_map[j]? = some x →
        x ≠ IRQ_FREE → i = j) := by
  refine ⟨by decide, by decide, by decide, ?_⟩
  intro h
  have := h 0 1 10 (by decide) (by decide) (by decide)
  omega

/-- C2. When no slot of `irq_map` holds the free sentinel and the bank of the
pin resolves, `meson_map_gic_irq` returns `-ENOSPC` and leaves the table and
the registers as they were, and so does `meson_irq_domain_alloc` for a request
that starts with this pin (nothing is delegated either). -/
theorem full_pool_alloc_enospc (get_bank : bank_lookup) (parent : parent_ops)
    (pc : meson_pinctrl) (hwirq irq nr_irqs : Nat) (arg : irq_fwspec)
    (hfull : ∀ s, s < pc.num_gic_irqs → pc.irq_map[s]? ≠ some IRQ_FREE)
    (hbank : (get_bank hwirq).1 = 0)
    (hcount : arg.param_count = 2) (hpin : arg.cell 0 = hwirq) (hnr : 0 < nr_irqs) :
    meson_map_gic_irq get_bank pc hwirq = (-ENOSPC, pc) ∧
    meson_irq_domain_alloc get_bank parent pc irq nr_irqs arg = (-ENOSPC, pc, []) := by
  have hfull2 : IRQ_FREE ∉ pc.irq_map := not_mem_of_slots pc.irq_map IRQ_FREE hfull
  have h1 := map_gic_irq_full get_bank pc hwirq hfull2 hbank
  refine ⟨h1, ?_⟩
  obtain ⟨k, rfl⟩ : ∃ k, nr_irqs = k + 1 := ⟨nr_irqs - 1, by omega⟩
  simp [meson_irq_domain_alloc, hcount, meson_irq_domain_alloc_loop, hpin, h1, ENOSPC]

/-- Witness of C2: the three lines hold pins 10, 20, 30 and pin 40 is
requested. -/
theorem full_pool_alloc_enospc_witness :
    meson_map_gic_irq (single_bank ⟨0, 0⟩ 100) (pool_of [10, 20, 30]) 40
        = (-ENOSPC, pool_of [10, 20, 30]) ∧
      meson_irq_domain_alloc (single_bank ⟨0, 0⟩ 100) parent_ok (pool_of [10, 20, 30]) 7 1
        (fwspec_for 40 IRQ_TYPE_EDGE_RISING) = (-ENOSPC, pool_of [10, 20, 30], []) :=
  full_pool_alloc_enospc (single_bank ⟨0, 0⟩ 100) parent_ok (pool_of [10, 20, 30]) 40 7 1
    (fwspec_for 40 IRQ_TYPE_EDGE_RISING) (by decide) (by decide) (by decide) (by decide)
    (by decide)

/-- C3. For a pin that some slot holds and every requested type,
`meson_irq_set_type` makes exactly one call of the parent set-type, with
`normalize_for_parent type`, and returns what the parent returns; the
normalisation maps level-low to level-high and falling-edge to rising-edge and
leaves every other type (rising-edge, level-high and both-edges among them)
as it is. -/
theorem set_type_delegates_normalized (parent : parent_ops) (pc : meson_pinctrl)
    (data : irq_data) (type s : Nat)
    (hbound : pc.irq_map[s]? = some (to_int data.hwirq)) :
    (meson_irq_set_type parent pc data type).2.2
        = [kernel_call.irq_chip_set_type_parent data (normalize_for_parent type)] ∧
      (meson_irq_set_type parent pc data type).1
        = parent.irq_chip_set_type_parent data (normalize_for_parent type) ∧
      normalize_for_parent IRQ_TYPE_LEVEL_LOW = IRQ_TYPE_LEVEL_HIGH ∧
      normalize_for_parent IRQ_TYPE_EDGE_FALLING = IRQ_TYPE_EDGE_RISING ∧
      normalize_for_parent IRQ_TYPE_EDGE_RISING = IRQ_TYPE_EDGE_RISING ∧
      normalize_for_parent IRQ_TYPE_LEVEL_HIGH = IRQ_TYPE_LEVEL_HIGH ∧
      normalize_for_parent IRQ_TYPE_EDGE_BOTH = IRQ_TYPE_EDGE_BOTH ∧
      (type ≠ IRQ_TYPE_LEVEL_LOW → type ≠ IRQ_TYPE_EDGE_FALLING →
        normalize_for_parent type = type) := by
  have hm : to_int data.hwirq ∈ pc.irq_map := List.getElem?_mem hbound
  obtain ⟨h1, h2⟩ := set_type_bound parent pc data type hm
  refine ⟨h2, h1, by decide, by decide, by decide, by decide, by decide, ?_⟩
  intro ha hb
  simp [normalize_for_parent, ha, hb]

/-- Witness of C3: pin 20 sits in slot 1 and level-low is requested; the parent
answers with the error code -5, which is returned. -/
theorem set_type_delegates_normalized_witness :
    (meson_irq_set_type parent_eio (pool_of [10, 20]) ⟨7, 20⟩ IRQ_TYPE_LEVEL_LOW).2.2
        = [kernel_call.irq_chip_set_type_parent ⟨7, 20⟩
            (normalize_for_parent IRQ_TYPE_LEVEL_LOW)] ∧
      (meson_irq_set_type parent_eio (pool_of [10, 20]) ⟨7, 20⟩ IRQ_TYPE_LEVEL_LOW).1
        = parent_eio.irq_chip_set_type_parent ⟨7, 20⟩
            (normalize_for_parent IRQ_TYPE_LEVEL_LOW) ∧
      normalize_for_parent IRQ_TYPE_LEVEL_LOW = IRQ_TYPE_LEVEL_HIGH ∧
      normalize_for_parent IRQ_TYPE_EDGE_FALLING = IRQ_TYPE_EDGE_RISING ∧
      normalize_for_parent IRQ_TYPE_EDGE_RISING = IRQ_TYPE_EDGE_RISING ∧
      normalize_for_parent IRQ_TYPE_LEVEL_HIGH = IRQ_TYPE_LEVEL_HIGH ∧
      normalize_for_parent IRQ_TYPE_EDGE_BOTH = IRQ_TYPE_EDGE_BOTH ∧
      (IRQ_TYPE_LEVEL_LOW ≠ IRQ_TYPE_LEVEL_LOW → IRQ_TYPE_LEVEL_LOW ≠ IRQ_TYPE_EDGE_FALLING →
        normalize_for_parent IRQ_TYPE_LEVEL_LOW = IRQ_TYPE_LEVEL_LOW) :=
  set_type_delegates_normalized parent_eio (pool_of [10, 20]) ⟨7, 20⟩ IRQ_TYPE_LEVEL_LOW 1
    (by decide)

/-- C4. For every pool state, every type and every pin that no slot holds,
`meson_irq_set_type` returns `-EINVAL`, leaves the driver state (the
edge/polarity register included) as it was and makes no call to the parent. -/
theorem set_type_unallocated_einval (parent : parent_ops) (pc : meson_pinctrl)
    (data : irq_data) (type : Nat)
    (hfree : ∀ s, s < pc.num_gic_irqs → pc.irq_map[s]? ≠ some (to_int data.hwirq)) :
    (meson_irq_set_type parent pc data type).1 = -EINVAL ∧
      (meson_irq_set_type parent pc data type).2.1 = pc ∧
      (meson_irq_set_type parent pc data type).2.1.reg_irq REG_EDGE_POL
        = pc.reg_irq REG_EDGE_POL ∧
      (meson_irq_set_type parent pc data type).2.2 = [] := by
  have hn : to_int data.hwirq ∉ pc.irq_map := not_mem_of_slots pc.irq_map _ hfree
  rw [set_type_unbound parent pc data type hn]
  exact ⟨rfl, rfl, rfl, rfl⟩

/-- Witness of C4: the slots hold pins 10 and 20, the type of pin 30 is set. -/
theorem set_type_unallocated_einval_witness :
    (meson_irq_set_type parent_ok (pool_of [10, 20]) ⟨7, 30⟩ IRQ_TYPE_EDGE_RISING).1 = -EINVAL ∧
      (meson_irq_set_type parent_ok (pool_of [10, 20]) ⟨7, 30⟩ IRQ_TYPE_EDGE_RISING).2.1
        = pool_of [10, 20] ∧
      (meson_irq_set_type parent_ok (pool_of [10, 20]) ⟨7, 30⟩
          IRQ_TYPE_EDGE_RISING).2.1.reg_irq REG_EDGE_POL
        = (pool_of [10, 20]).reg_irq REG_EDGE_POL ∧
      (meson_irq_set_type parent_ok (pool_of [10, 20]) ⟨7, 30⟩ IRQ_TYPE_EDGE_RISING).2.2 = [] :=
  set_type_unallocated_einval parent_ok (pool_of [10, 20]) ⟨7, 30⟩ IRQ_TYPE_EDGE_RISING
    (by decide)

/-- C5. For every pool state and every pin that no slot holds, Free of that pin
(a request of one interrupt whose `irq_data` names the pin) returns, leaves
the driver state and so every entry of `irq_map` as it was, and a second Free
of the pin gives the same table as the first. -/
theorem free_unallocated_noop (get : Nat → irq_data) (pc : meson_pinctrl) (irq : Nat)
    (hfree : ∀ s, s < pc.num_gic_irqs → pc.irq_map[s]? ≠ some (to_int (get irq).hwirq)) :
    (meson_irq_domain_free get pc irq 1).1 = pc ∧
      (∀ s : Nat, (meson_irq_domain_free get pc irq 1).1.irq_map[s]? = pc.irq_map[s]?) ∧
      (meson_irq_domain_free get (meson_irq_domain_free get pc irq 1).1 irq 1).1.irq_map
        = (meson_irq_domain_free get pc irq 1).1.irq_map := by
  have hn : to_int (get irq).hwirq ∉ pc.irq_map := not_mem_of_slots pc.irq_map _ hfree
  have h1 : (meson_irq_domain_free get pc irq 1).1 = pc := by
    simp only [meson_irq_domain_free]
    apply free_loop_unbound
    intro j h1 h2
    have : j = 0 := by omega
    subst this
    simpa using hn
  refine ⟨h1, ?_, ?_⟩
  · intro s
    rw [h1]
  · rw [h1, h1]

/-- Witness of C5: the slots hold pin 10 and nothing else, pin 30 is freed. -/
theorem free_unallocated_noop_witness :
    (meson_irq_domain_free (irq_data_for 7 30) (pool_of [10, IRQ_FREE]) 7 1).1
        = pool_of [10, IRQ_FREE] ∧
      (∀ s : Nat,
        (meson_irq_domain_free (irq_data_for 7 30) (pool_of [10, IRQ_FREE]) 7 1).1.irq_map[s]?
          = (pool_of [10, IRQ_FREE]).irq_map[s]?) ∧
      (meson_irq_domain_free (irq_data_for 7 30)
          (meson_irq_domain_free (irq_data_for 7 30) (pool_of [10, IRQ_FREE]) 7 1).1 7 1).1.irq_map
        = (meson_irq_domain_free (irq_data_for 7 30) (pool_of [10, IRQ_FREE]) 7 1).1.irq_map :=
  free_unallocated_noop (irq_data_for 7 30) (pool_of [10, IRQ_FREE]) 7 (by decide)

/-- C6 (as amended). For every pool state with a free slot and every pin whose
bank resolves, so that Allocate of the pin succeeds, and that is not held by a
slot below the lowest free slot `s` (every pin that is not bound at all is such
a pin): Allocate of the pin returns 0, and Free of the pin right after it gives
back the table of before the Allocate, slot by slot, with the same number of
free slots. -/
theorem alloc_free_roundtrip (get_bank : bank_lookup) (parent : parent_ops)
    (get : Nat → irq_data) (pc : meson_pinctrl) (irq hwirq s : Nat) (arg : irq_fwspec)
    (harg : arg.param_count = 2) (hpin : arg.cell 0 = hwirq) (hget : (get irq).hwirq = hwirq)
    (hbank : (get_bank hwirq).1 = 0)
    (hslot : pc.irq_map[s]? = some IRQ_FREE)
    (hlow : ∀ j, j < s → pc.irq_map[j]? ≠ some IRQ_FREE)
    (hnot : ∀ j, j < s → pc.irq_map[j]? ≠ some (to_int hwirq)) :
    (meson_irq_domain_alloc get_bank parent pc irq 1 arg).1 = 0 ∧
    (meson_irq_domain_free get
        (meson_irq_domain_alloc get_bank parent pc irq 1 arg).2.1 irq 1).1.irq_map
      = pc.irq_map ∧
    free_slots (meson_irq_domain_free get
        (meson_irq_domain_alloc get_bank parent pc irq 1 arg).2.1 irq 1).1.irq_map
      = free_slots pc.irq_map := by
  obtain ⟨h0, -, hmap⟩ := alloc_one_at get_bank parent pc irq hwirq s arg harg hpin hbank hslot hlow
  have hlen : s < pc.irq_map.length := (List.getElem?_eq_some_iff.1 hslot).1
  have hfree : (meson_irq_domain_free get
        (meson_irq_domain_alloc get_bank parent pc irq 1 arg).2.1 irq 1).1.irq_map
      = pc.irq_map := by
    rw [free_one_at get _ irq s]
    · rw [hmap]
      exact set_set_free_eq pc.irq_map s _ hslot
    · rw [hmap, hget]
      exact List.getElem?_set_self hlen
    · intro j hj
      rw [hmap, hget, List.getElem?_set_ne (by omega)]
      exact hnot j hj
  exact ⟨h0, hfree, by rw [hfree]⟩

/-- Witness of C6 (as amended): slot 0 holds pin 10, slot 1 is free, pin 30 is
allocated and freed. -/
theorem alloc_free_roundtrip_witness :
    (meson_irq_domain_alloc (single_bank ⟨0, 0⟩ 100) parent_ok (pool_of [10, IRQ_FREE]) 7 1
        (fwspec_for 30 IRQ_TYPE_EDGE_RISING)).1 = 0 ∧
    (meson_irq_domain_free (irq_data_for 7 30)
        (meson_irq_domain_alloc (single_bank ⟨0, 0⟩ 100) parent_ok (pool_of [10, IRQ_FREE]) 7 1
          (fwspec_for 30 IRQ_TYPE_EDGE_RISING)).2.1 7 1).1.irq_map
      = (pool_of [10, IRQ_FREE]).irq_map ∧
    free_slots (meson_irq_domain_free (irq_data_for 7 30)
        (meson_irq_domain_alloc (single_bank ⟨0, 0⟩ 100) parent_ok (pool_of [10, IRQ_FREE]) 7 1
          (fwspec_for 30 IRQ_TYPE_EDGE_RISING)).2.1 7 1).1.irq_map
      = free_slots (pool_of [10, IRQ_FREE]).irq_map :=
  alloc_free_roundtrip (single_bank ⟨0, 0⟩ 100) parent_ok (irq_data_for 7 30)
    (pool_of [10, IRQ_FREE]) 7 30 1 (fwspec_for 30 IRQ_TYPE_EDGE_RISING)
    (by decide) (by decide) (by decide) (by decide) (by decide) (by decide) (by decide)

/-- Counterexample to C6 as stated: slot 0 holds pin 10 and slot 1 is free.
Allocate of pin 10 succeeds and binds it to slot 1 as well; the Free that
follows clears slot 0, so the table is `[free, 10]` and not `[10, free]`. -/
theorem roundtrip_rebinds_lower_slot :
    (meson_irq_domain_alloc (single_bank ⟨0, 0⟩ 100) parent_ok (pool_of [10, IRQ_FREE]) 7 1
        (fwspec_for 10 IRQ_TYPE_EDGE_RISING)).1 = 0 ∧
    (meson_irq_domain_alloc (single_bank ⟨0, 0⟩ 100) parent_ok (pool_of [10, IRQ_FREE]) 7 1
        (fwspec_for 10 IRQ_TYPE_EDGE_RISING)).2.1.irq_map = [10, 10] ∧
    (meson_irq_domain_free (irq_data_for 7 10)
        (meson_irq_domain_alloc (single_bank ⟨0, 0⟩ 100) parent_ok (pool_of [10, IRQ_FREE]) 7 1
          (fwspec_for 10 IRQ_TYPE_EDGE_RISING)).2.1 7 1).1.irq_map
      = [IRQ_FREE, 10] ∧
    (meson_irq_domain_free (irq_data_for 7 10)
        (meson_irq_domain_alloc (single_bank ⟨0, 0⟩ 100) parent_ok (pool_of [10, IRQ_FREE]) 7 1
          (fwspec_for 10 IRQ_TYPE_EDGE_RISING)).2.1 7 1).1.irq_map
      ≠ (pool_of [10, IRQ_FREE]).irq_map := by
  decide

/-- C7. When the bank of the pin resolves and `s` is the lowest free slot,
`meson_map_gic_irq` returns `s`, slot `s` holds the pin afterwards and every
other slot is as before; so a freed slot is taken by the next allocation when
no lower slot is free. The scenario of the specification: with three lines,
pins 10, 20 and 30 are allocated in this order and occupy slots 0, 1 and 2;
pin 40 is refused with `-ENOSPC`; Free of pin 20 frees slot 1; pin 40 is then
allocated and bound to slot 1. -/
theorem alloc_lowest_free_slot (get_bank : bank_lookup) (pc : meson_pinctrl) (hwirq s : Nat)
    (hbank : (get_bank hwirq).1 = 0)
    (hslot : pc.irq_map[s]? = some IRQ_FREE)
    (hlow : ∀ j, j < s → pc.irq_map[j]? ≠ some IRQ_FREE) :
    ((meson_map_gic_irq get_bank pc hwirq).1 = (s : Int) ∧
      (meson_map_gic_irq get_bank pc hwirq).2.irq_map[s]? = some (to_int hwirq) ∧
      (∀ j : Nat, j ≠ s →
        (meson_map_gic_irq get_bank pc hwirq).2.irq_map[j]? = pc.irq_map[j]?)) ∧
    ((scenario_alloc (empty_pool 3) 10).1 = 0 ∧ scenario_1.irq_map = [10, IRQ_FREE, IRQ_FREE] ∧
      (scenario_alloc scenario_1 20).1 = 0 ∧ scenario_2.irq_map = [10, 20, IRQ_FREE] ∧
      (scenario_alloc scenario_2 30).1 = 0 ∧ scenario_3.irq_map = [10, 20, 30] ∧
      (scenario_alloc scenario_3 40).1 = -ENOSPC ∧ scenario_4.irq_map = [10, 20, 30] ∧
      scenario_5.irq_map = [10, IRQ_FREE, 30] ∧
      (scenario_alloc scenario_5 40).1 = 0 ∧ scenario_6.irq_map = [10, 40, 30] ∧
      (meson_map_gic_irq (single_bank ⟨0, 0⟩ 100) scenario_5 40).1 = 1) := by
  have hlen : s < pc.irq_map.length := (List.getElem?_eq_some_iff.1 hslot).1
  refine ⟨?_, by decide⟩
  rw [map_gic_irq_at get_bank pc hwirq s hbank hslot hlow]
  refine ⟨rfl, List.getElem?_set_self hlen, ?_⟩
  intro j hj
  exact List.getElem?_set_ne (fun e => hj e.symm)

/-- Witness of C7: the state of the scenario after Free of pin 20, where slot
1 is the lowest free slot, and pin 40. -/
theorem alloc_lowest_free_slot_witness :
    ((meson_map_gic_irq (single_bank ⟨0, 0⟩ 100) scenario_5 40).1 = ((1 : Nat) : Int) ∧
      (meson_map_gic_irq (single_bank ⟨0, 0⟩ 100) scenario_5 40).2.irq_map[1]?
        = some (to_int 40) ∧
      (∀ j : Nat, j ≠ 1 →
        (meson_map_gic_irq (single_bank ⟨0, 0⟩ 100) scenario_5 40).2.irq_map[j]?
          = scenario_5.irq_map[j]?)) ∧
    ((scenario_alloc (empty_pool 3) 10).1 = 0 ∧ scenario_1.irq_map = [10, IRQ_FREE, IRQ_FREE] ∧
      (scenario_alloc scenario_1 20).1 = 0 ∧ scenario_2.irq_map = [10, 20, IRQ_FREE] ∧
      (scenario_alloc scenario_2 30).1 = 0 ∧ scenario_3.irq_map = [10, 20, 30] ∧
      (scenario_alloc scenario_3 40).1 = -ENOSPC ∧ scenario_4.irq_map = [10, 20, 30] ∧
      scenario_5.irq_map = [10, IRQ_FREE, 30] ∧
      (scenario_alloc scenario_5 40).1 = 0 ∧ scenario_6.irq_map = [10, 40, 30] ∧
      (meson_map_gic_irq (single_bank ⟨0, 0⟩ 100) scenario_5 40).1 = 1) :=
  alloc_lowest_free_slot (single_bank ⟨0, 0⟩ 100) scenario_5 40 1
    (by decide) (by decide) (by decide)

/-- C8 (as amended). When a pin `hwirq` of bank `b` is bound to slot `s`, the
lowest free slot, the write goes to `REG_GPIO_SEL0` if `s < 4` and to
`REG_GPIO_SEL1` otherwise; afterwards byte `s mod 4` of that register holds
the low 8 bits of the bank-relative pin offset `b.irq + hwirq - b.first` (the
offset itself whenever it is below 256), the other bytes of that register are
as before and the other selection register is as before. The scenario of the
specification: for the H bank (first pin 96) and slot 5, pin 105 is written as
23 into byte 1 (bits 15:8) of the second selection register. -/
theorem sel_byte_written (get_bank : bank_lookup) (pc : meson_pinctrl) (hwirq s : Nat)
    (b : meson_bank) (hbank : get_bank hwirq = (0, b)) (hpin : b.first ≤ hwirq)
    (hslot : pc.irq_map[s]? = some IRQ_FREE)
    (hlow : ∀ j, j < s → pc.irq_map[j]? ≠ some IRQ_FREE) :
    ((meson_map_gic_irq get_bank pc hwirq).1 = (s : Int) ∧
    reg_byte ((meson_map_gic_irq get_bank pc hwirq).2.reg_irq
        (if s < 4 then REG_GPIO_SEL0 else REG_GPIO_SEL1)) (s % 4)
      = (b.irq + hwirq - b.first) % 256 ∧
    (b.irq + hwirq - b.first < 256 →
      reg_byte ((meson_map_gic_irq get_bank pc hwirq).2.reg_irq
          (if s < 4 then REG_GPIO_SEL0 else REG_GPIO_SEL1)) (s % 4)
        = b.irq + hwirq - b.first) ∧
    (∀ k, k < 4 → k ≠ s % 4 →
      reg_byte ((meson_map_gic_irq get_bank pc hwirq).2.reg_irq
          (if s < 4 then REG_GPIO_SEL0 else REG_GPIO_SEL1)) k
        = reg_byte (pc.reg_irq (if s < 4 then REG_GPIO_SEL0 else REG_GPIO_SEL1)) k) ∧
    (meson_map_gic_irq get_bank pc hwirq).2.reg_irq
        (if s < 4 then REG_GPIO_SEL1 else REG_GPIO_SEL0)
      = pc.reg_irq (if s < 4 then REG_GPIO_SEL1 else REG_GPIO_SEL0)) ∧
    ((meson_map_gic_irq (single_bank bank_H 14) pool_H 105).1 = 5 ∧
      (meson_map_gic_irq (single_bank bank_H 14) pool_H 105).2.reg_irq REG_GPIO_SEL1
        = 23 <<< 8 ∧
      (meson_map_gic_irq (single_bank bank_H 14) pool_H 105).2.reg_irq REG_GPIO_SEL0
        = pool_H.reg_irq REG_GPIO_SEL0) := by
  have hb1 : (get_bank hwirq).1 = 0 := by rw [hbank]
  have hb2 : (get_bank hwirq).2 = b := by rw [hbank]
  have hmap := map_gic_irq_at get_bank pc hwirq s hb1 hslot hlow
  have hs4 : s % 4 < 4 := Nat.mod_lt s (by decide)
  have hsel : (if s < 4 then REG_GPIO_SEL0 else REG_GPIO_SEL1) ≠ REG_FILTER := by
    split <;> decide
  have hoth : (if s < 4 then REG_GPIO_SEL1 else REG_GPIO_SEL0) ≠ REG_FILTER := by
    split <;> decide
  have hdiff : (if s < 4 then REG_GPIO_SEL1 else REG_GPIO_SEL0)
      ≠ (if s < 4 then REG_GPIO_SEL0 else REG_GPIO_SEL1) := by
    split <;> decide
  have hbyte : ∀ c, c < 4 →
      reg_byte ((meson_map_gic_irq get_bank pc hwirq).2.reg_irq
        (if s < 4 then REG_GPIO_SEL0 else REG_GPIO_SEL1)) c
      = if c = s % 4 then mux_value b hwirq % 2 ^ 8
        else reg_byte (pc.reg_irq (if s < 4 then REG_GPIO_SEL0 else REG_GPIO_SEL1)) c := by
    intro c hc
    rw [hmap, hb2]
    simp only
    rw [update_bits_other _ _ _ _ _ hsel]
    exact sel_update_byte _ _ _ _ _ hs4 hc
  have hval : mux_value b hwirq % 2 ^ 8 = (b.irq + hwirq - b.first) % 256 := by
    rw [mux_value_of_le b hwirq hpin]
    exact Nat.mod_mod_of_dvd _ (by norm_num)
  refine ⟨⟨by rw [hmap], ?_, ?_, ?_, ?_⟩, by decide⟩
  · rw [hbyte _ hs4, if_pos rfl, hval]
  · intro hlt
    rw [hbyte _ hs4, if_pos rfl, hval, Nat.mod_eq_of_lt hlt]
  · intro k hk hne
    rw [hbyte k hk, if_neg hne]
  · rw [hmap]
    simp only
    rw [update_bits_other _ _ _ _ _ hoth, update_bits_other _ _ _ _ _ hdiff]

/-- Witness of C8 (as amended): the H bank, slots 0 to 4 taken, pin 105. -/
theorem sel_byte_written_witness :
    ((meson_map_gic_irq (single_bank bank_H 14) pool_H 105).1 = ((5 : Nat) : Int) ∧
    reg_byte ((meson_map_gic_irq (single_bank bank_H 14) pool_H 105).2.reg_irq
        (if 5 < 4 then REG_GPIO_SEL0 else REG_GPIO_SEL1)) (5 % 4)
      = (bank_H.irq + 105 - bank_H.first) % 256 ∧
    (bank_H.irq + 105 - bank_H.first < 256 →
      reg_byte ((meson_map_gic_irq (single_bank bank_H 14) pool_H 105).2.reg_irq
          (if 5 < 4 then REG_GPIO_SEL0 else REG_GPIO_SEL1)) (5 % 4)
        = bank_H.irq + 105 - bank_H.first) ∧
    (∀ k, k < 4 → k ≠ 5 % 4 →
      reg_byte ((meson_map_gic_irq (single_bank bank_H 14) pool_H 105).2.reg_irq
          (if 5 < 4 then REG_GPIO_SEL0 else REG_GPIO_SEL1)) k
        = reg_byte (pool_H.reg_irq (if 5 < 4 then REG_GPIO_SEL0 else REG_GPIO_SEL1)) k) ∧
    (meson_map_gic_irq (single_bank bank_H 14) pool_H 105).2.reg_irq
        (if 5 < 4 then REG_GPIO_SEL1 else REG_GPIO_SEL0)
      = pool_H.reg_irq (if 5 < 4 then REG_GPIO_SEL1 else REG_GPIO_SEL0)) ∧
    ((meson_map_gic_irq (single_bank bank_H 14) pool_H 105).1 = 5 ∧
      (meson_map_gic_irq (single_bank bank_H 14) pool_H 105).2.reg_irq REG_GPIO_SEL1
        = 23 <<< 8 ∧
      (meson_map_gic_irq (single_bank bank_H 14) pool_H 105).2.reg_irq REG_GPIO_SEL0
        = pool_H.reg_irq REG_GPIO_SEL0) :=
  sel_byte_written (single_bank bank_H 14) pool_H 105 5 bank_H (by decide) (by decide)
    (by decide) (by decide)

/-- Counterexample to C8 as stated: a bank whose first pin 0 has mux value 250;
pin 10 of the bank has the offset 260, it is bound to slot 0, and byte 0 of the
first selection register holds 4, the low 8 bits of 260. -/
theorem sel_byte_truncated :
    single_bank ⟨0, 250⟩ 14 10 = (0, ⟨0, 250⟩) ∧
    (meson_map_gic_irq (single_bank ⟨0, 250⟩ 14) (empty_pool 8) 10).1 = 0 ∧
    reg_byte ((meson_map_gic_irq (single_bank ⟨0, 250⟩ 14) (empty_pool 8) 10).2.reg_irq
        REG_GPIO_SEL0) 0 = 4 ∧
    reg_byte ((meson_map_gic_irq (single_bank ⟨0, 250⟩ 14) (empty_pool 8) 10).2.reg_irq
        REG_GPIO_SEL0) 0 ≠ 250 + 10 - 0 := by
  decide

/-- C9 (as amended). For every pin and every slot `s` below 16 that is the
lowest slot holding the pin (the slot that the reverse lookup finds; the only
slot of the pin when no pin is held twice), and every requested type: after
`meson_irq_set_type` bit `s` of the edge/polarity register is set exactly when
the type is rising-edge or falling-edge, and bit `16 + s` is set exactly when
the type is falling-edge or level-low; for every other type both bits are
clear. -/
theorem set_type_programs_edge_pol (parent : parent_ops) (pc : meson_pinctrl)
    (data : irq_data) (type s : Nat) (hs : s < 16)
    (hbound : pc.irq_map[s]? = some (to_int data.hwirq))
    (hlow : ∀ j, j < s → pc.irq_map[j]? ≠ some (to_int data.hwirq)) :
    (((meson_irq_set_type parent pc data type).2.1.reg_irq REG_EDGE_POL).testBit s = true ↔
      (type = IRQ_TYPE_EDGE_RISING ∨ type = IRQ_TYPE_EDGE_FALLING)) ∧
    (((meson_irq_set_type parent pc data type).2.1.reg_irq REG_EDGE_POL).testBit (16 + s) = true ↔
      (type = IRQ_TYPE_EDGE_FALLING ∨ type = IRQ_TYPE_LEVEL_LOW)) ∧
    (type ≠ IRQ_TYPE_EDGE_RISING → type ≠ IRQ_TYPE_EDGE_FALLING → type ≠ IRQ_TYPE_LEVEL_LOW →
      ((meson_irq_set_type parent pc data type).2.1.reg_irq REG_EDGE_POL).testBit s = false ∧
      ((meson_irq_set_type parent pc data type).2.1.reg_irq REG_EDGE_POL).testBit (16 + s)
        = false) := by
  have hidx := get_gic_irq_lowest pc (to_int data.hwirq) s hbound hlow
  have h1 : s < 32 := by omega
  have h2 : 16 + s < 32 := by omega
  have h3 : ¬ (s = 16 + s) := by omega
  have h4 : ¬ (16 + s = s) := by omega
  have hA : (((meson_irq_set_type parent pc data type).2.1.reg_irq REG_EDGE_POL).testBit s = true ↔
      (type = IRQ_TYPE_EDGE_RISING ∨ type = IRQ_TYPE_EDGE_FALLING)) := by
    rw [set_type_reg_testBit parent pc data type s s hidx]
    simp [h1, h3]
    tauto
  have hB : (((meson_irq_set_type parent pc data type).2.1.reg_irq REG_EDGE_POL).testBit (16 + s)
      = true ↔ (type = IRQ_TYPE_EDGE_FALLING ∨ type = IRQ_TYPE_LEVEL_LOW)) := by
    rw [set_type_reg_testBit parent pc data type s (16 + s) hidx]
    simp [h2, h4]
  refine ⟨hA, hB, ?_⟩
  intro n1 n2 n3
  constructor
  · cases hv : ((meson_irq_set_type parent pc data type).2.1.reg_irq REG_EDGE_POL).testBit s
    · rfl
    · rcases hA.1 hv with e | e
      · exact absurd e n1
      · exact absurd e n2
  · cases hv : ((meson_irq_set_type parent pc data type).2.1.reg_irq REG_EDGE_POL).testBit (16 + s)
    · rfl
    · rcases hB.1 hv with e | e
      · exact absurd e n2
      · exact absurd e n3

/-- Witness of C9 (as amended): pin 20 in slot 1, falling edge. -/
theorem set_type_programs_edge_pol_witness :
    (((meson_irq_set_type parent_ok (pool_of [10, 20]) ⟨7, 20⟩
        IRQ_TYPE_EDGE_FALLING).2.1.reg_irq REG_EDGE_POL).testBit 1 = true ↔
      (IRQ_TYPE_EDGE_FALLING = IRQ_TYPE_EDGE_RISING ∨
        IRQ_TYPE_EDGE_FALLING = IRQ_TYPE_EDGE_FALLING)) ∧
    (((meson_irq_set_type parent_ok (pool_of [10, 20]) ⟨7, 20⟩
        IRQ_TYPE_EDGE_FALLING).2.1.reg_irq REG_EDGE_POL).testBit (16 + 1) = true ↔
      (IRQ_TYPE_EDGE_FALLING = IRQ_TYPE_EDGE_FALLING ∨
        IRQ_TYPE_EDGE_FALLING = IRQ_TYPE_LEVEL_LOW)) ∧
    (IRQ_TYPE_EDGE_FALLING ≠ IRQ_TYPE_EDGE_RISING →
      IRQ_TYPE_EDGE_FALLING ≠ IRQ_TYPE_EDGE_FALLING →
      IRQ_TYPE_EDGE_FALLING ≠ IRQ_TYPE_LEVEL_LOW →
      ((meson_irq_set_type parent_ok (pool_of [10, 20]) ⟨7, 20⟩
        IRQ_TYPE_EDGE_FALLING).2.1.reg_irq REG_EDGE_POL).testBit 1 = false ∧
      ((meson_irq_set_type parent_ok (pool_of [10, 20]) ⟨7, 20⟩
        IRQ_TYPE_EDGE_FALLING).2.1.reg_irq REG_EDGE_POL).testBit (16 + 1) = false) :=
  set_type_programs_edge_pol parent_ok (pool_of [10, 20]) ⟨7, 20⟩ IRQ_TYPE_EDGE_FALLING 1
    (by decide) (by decide) (by decide)

/-- Counterexample to C9 as stated, in two parts. A pool of 17 lines in which
pin 5 is bound to slot 16: level-low is requested, and bit `16 + 16` of the
edge/polarity register, a 32-bit register, is not set. And a table in which
pin 20 is held by slots 0 and 1 (as two Allocate calls for pin 20 leave it):
pin 20 is bound to slot 1, a falling edge is requested, and bits 1 and 17 are
not set; the bits of slot 0, the slot that the reverse lookup finds, are set
instead. -/
theorem edge_pol_bits_not_as_claimed :
    (pool_17.irq_map[16]? = some (to_int 5) ∧
    (∀ j, j < 16 → pool_17.irq_map[j]? ≠ some (to_int 5)) ∧
    ((meson_irq_set_type parent_ok pool_17 ⟨7, 5⟩ IRQ_TYPE_LEVEL_LOW).2.1.reg_irq
        REG_EDGE_POL).testBit (16 + 16) = false ∧
    ¬ (((meson_irq_set_type parent_ok pool_17 ⟨7, 5⟩ IRQ_TYPE_LEVEL_LOW).2.1.reg_irq
          REG_EDGE_POL).testBit (16 + 16) = true ↔
        (IRQ_TYPE_LEVEL_LOW = IRQ_TYPE_EDGE_FALLING ∨ IRQ_TYPE_LEVEL_LOW = IRQ_TYPE_LEVEL_LOW))) ∧
    ((pool_of [20, 20]).irq_map[1]? = some (to_int 20) ∧
    ((meson_irq_set_type parent_ok (pool_of [20, 20]) ⟨7, 20⟩ IRQ_TYPE_EDGE_FALLING).2.1.reg_irq
        REG_EDGE_POL).testBit 1 = false ∧
    ((meson_irq_set_type parent_ok (pool_of [20, 20]) ⟨7, 20⟩ IRQ_TYPE_EDGE_FALLING).2.1.reg_irq
        REG_EDGE_POL).testBit (16 + 1) = false ∧
    ((meson_irq_set_type parent_ok (pool_of [20, 20]) ⟨7, 20⟩ IRQ_TYPE_EDGE_FALLING).2.1.reg_irq
        REG_EDGE_POL).testBit 0 = true ∧
    ((meson_irq_set_type parent_ok (pool_of [20, 20]) ⟨7, 20⟩ IRQ_TYPE_EDGE_FALLING).2.1.reg_irq
        REG_EDGE_POL).testBit (16 + 0) = true ∧
    ¬ (((meson_irq_set_type parent_ok (pool_of [20, 20]) ⟨7, 20⟩
          IRQ_TYPE_EDGE_FALLING).2.1.reg_irq REG_EDGE_POL).testBit 1 = true ↔
        (IRQ_TYPE_EDGE_FALLING = IRQ_TYPE_EDGE_RISING ∨
          IRQ_TYPE_EDGE_FALLING = IRQ_TYPE_EDGE_FALLING))) := by
  decide

theorem gic_data_for_param (pc : meson_pinctrl) (index : Nat) :
    gic_data_for pc index
      = ⟨3, some 0 :: some IRQ_TYPE_EDGE_RISING :: List.replicate 14 none⟩ := by
  simp [gic_data_for, IRQ_DOMAIN_IRQ_SPEC_PARAMS, List.replicate]

theorem alloc_loop_ignores_parent (get_bank : bank_lookup) (p1 p2 : parent_ops)
    (irq nr_irqs hwirq k i : Nat) (pc : meson_pinctrl) (log : List kernel_call) :
    meson_irq_domain_alloc_loop get_bank p1 irq nr_irqs hwirq i k pc log
      = meson_irq_domain_alloc_loop get_bank p2 irq nr_irqs hwirq i k pc log := by
  induction k generalizing i pc log with
  | zero => rfl
  | succ k ih =>
    simp only [meson_irq_domain_alloc_loop]
    split
    · rfl
    · exact ih _ _ _

theorem alloc_ignores_parent (get_bank : bank_lookup) (p1 p2 : parent_ops)
    (pc : meson_pinctrl) (irq nr_irqs : Nat) (arg : irq_fwspec) :
    meson_irq_domain_alloc get_bank p1 pc irq nr_irqs arg
      = meson_irq_domain_alloc get_bank p2 pc irq nr_irqs arg := by
  simp only [meson_irq_domain_alloc]
  split
  · rfl
  · exact alloc_loop_ignores_parent _ _ _ _ _ _ _ _ _ _

theorem map_gic_irq_no_bank (get_bank : bank_lookup) (pc : meson_pinctrl) (hwirq : Nat)
    (hbank : (get_bank hwirq).1 ≠ 0) :
    meson_map_gic_irq get_bank pc hwirq = ((get_bank hwirq).1, pc) := by
  simp [meson_map_gic_irq, hbank]

theorem init_loop_getElem? (prop : of_property) (k i : Nat) (irq_map : List Int)
    (gic_irqs : List Nat) (s : Nat) :
    (meson_gpio_irq_init_loop prop i k irq_map gic_irqs).1[s]?
      = if i ≤ s ∧ s < i + k ∧ s < irq_map.length then some IRQ_FREE else irq_map[s]? := by
  induction k generalizing i irq_map gic_irqs with
  | zero =>
    have : ¬ (i ≤ s ∧ s < i + 0 ∧ s < irq_map.length) := by omega
    simp only [meson_gpio_irq_init_loop, if_neg this]
  | succ k ih =>
    simp only [meson_gpio_irq_init_loop]
    rw [ih, List.length_set, List.getElem?_set]
    by_cases h1 : i = s
    · subst h1
      by_cases h2 : i < irq_map.length
      · have a : ¬ (i + 1 ≤ i ∧ i < i + 1 + k ∧ i < irq_map.length) := by omega
        have b : i ≤ i ∧ i < i + (k + 1) ∧ i < irq_map.length := by omega
        simp [a, b, h2]
      · have a : ¬ (i + 1 ≤ i ∧ i < i + 1 + k ∧ i < irq_map.length) := by omega
        have b : ¬ (i ≤ i ∧ i < i + (k + 1) ∧ i < irq_map.length) := by omega
        simp only [if_neg a, if_neg b, if_true, if_neg h2]
        exact (List.getElem?_eq_none (by omega)).symm
    · by_cases h3 : i + 1 ≤ s ∧ s < i + 1 + k ∧ s < irq_map.length
      · have b : i ≤ s ∧ s < i + (k + 1) ∧ s < irq_map.length := by omega
        simp [h3, b]
      · have b : ¬ (i ≤ s ∧ s < i + (k + 1) ∧ s < irq_map.length) := by omega
        simp [h3, b, h1]

theorem init_loop_length (prop : of_property) (k i : Nat) (irq_map : List Int)
    (gic_irqs : List Nat) :
    (meson_gpio_irq_init_loop prop i k irq_map gic_irqs).1.length = irq_map.length := by
  induction k generalizing i irq_map gic_irqs with
  | zero => rfl
  | succ k ih =>
    simp only [meson_gpio_irq_init_loop]
    rw [ih, List.length_set]

theorem init_loop_all_free (prop : of_property) (n : Nat) (mem : Nat → Int)
    (gic_irqs : List Nat) :
    (meson_gpio_irq_init_loop prop 0 n ((List.range n).map mem) gic_irqs).1
      = List.replicate n IRQ_FREE := by
  apply List.ext_getElem?
  intro s
  rw [init_loop_getElem?, List.getElem?_replicate]
  by_cases h : s < n
  · have a : 0 ≤ s ∧ s < 0 + n ∧ s < ((List.range n).map mem).length := by
      simp [h]
    simp [a, h]
  · have a : ¬ (0 ≤ s ∧ s < 0 + n ∧ s < ((List.range n).map mem).length) := by
      simp [h]
    rw [if_neg a, if_neg h]
    exact List.getElem?_eq_none (by simp; omega)
theorem init_success_table (plat : irq_platform) (pc : meson_pinctrl) (prop : of_property)
    (hok : (meson_gpio_irq_init plat pc).1 = 0) (hprop : plat.irqs_gpio = some prop) :
    (meson_gpio_irq_init plat pc).2.irq_map = List.replicate (prop.size / 4) IRQ_FREE := by
  unfold meson_gpio_irq_init at hok ⊢
  by_cases h1 : plat.parent_node = false
  · simp [h1, EINVAL] at hok
  by_cases h2 : plat.parent_domain = false
  · simp [h1, h2, EINVAL] at hok
  simp only [h1, h2, if_false] at hok ⊢
  cases h3 : plat.reg_irq with
  | none => simp [h3, EINVAL] at hok
  | some reg_irq =>
    simp only [h3, hprop] at hok ⊢
    cases h4 : plat.irq_map_mem with
    | none => simp [h4, ENOMEM] at hok
    | some mem =>
      simp only [h4] at hok ⊢
      by_cases h5 : plat.gic_irqs_mem = false
      · simp [h5, ENOMEM] at hok
      simp only [h5, if_false] at hok ⊢
      by_cases h6 : plat.irq_domain = false
      · simp [h6, EINVAL] at hok
      simp only [h6, if_false]
      exact init_loop_all_free _ _ _ _

theorem map_gic_irq_neg_state (get_bank : bank_lookup) (pc : meson_pinctrl) (hwirq : Nat)
    (hneg : (meson_map_gic_irq get_bank pc hwirq).1 < 0) :
    (meson_map_gic_irq get_bank pc hwirq).2 = pc := by
  by_cases h1 : (get_bank hwirq).1 = 0
  · by_cases h2 : meson_get_gic_irq pc IRQ_FREE < 0
    · simp [meson_map_gic_irq, h1, h2]
    · exfalso
      simp [meson_map_gic_irq, h1, h2] at hneg
  · simp [meson_map_gic_irq, h1]

theorem alloc_pin_eq (get_bank : bank_lookup) (parent : parent_ops) (pc : meson_pinctrl)
    (irq hwirq : Nat) :
    (alloc_pin get_bank parent pc irq hwirq).2.1 = (meson_map_gic_irq get_bank pc hwirq).2 ∧
    (alloc_pin get_bank parent pc irq hwirq).1
      = (if (meson_map_gic_irq get_bank pc hwirq).1 < 0
          then (meson_map_gic_irq get_bank pc hwirq).1 else 0) := by
  have hc : (fwspec_for hwirq IRQ_TYPE_EDGE_RISING).cell 0 = hwirq := rfl
  simp only [alloc_pin, meson_irq_domain_alloc, fwspec_for, ne_eq, not_true_eq_false, if_false,
    meson_irq_domain_alloc_loop, Nat.add_zero]
  rw [show (irq_fwspec.mk 2 [some hwirq, some IRQ_TYPE_EDGE_RISING]).cell 0 = hwirq from rfl]
  by_cases h : (meson_map_gic_irq get_bank pc hwirq).1 < 0
  · simp [h]
  · simp [h]

theorem alloc_loop_prefix (get_bank : bank_lookup) (parent : parent_ops)
    (irq nr_irqs hwirq : Nat) (e : Int) (he : e < 0)
    (j i k : Nat) (pc : meson_pinctrl) (log : List kernel_call) (hjk : j < k)
    (hok : ∀ t, t < j →
      (alloc_pin get_bank parent (alloc_singly get_bank parent irq hwirq i t pc)
        (irq + (i + t)) (hwirq + (i + t))).1 = 0)
    (hfail : (alloc_pin get_bank parent (alloc_singly get_bank parent irq hwirq i j pc)
        (irq + (i + j)) (hwirq + (i + j))).1 = e) :
    (meson_irq_domain_alloc_loop get_bank parent irq nr_irqs hwirq i k pc log).1 = e ∧
    (meson_irq_domain_alloc_loop get_bank parent irq nr_irqs hwirq i k pc log).2.1
      = alloc_singly get_bank parent irq hwirq i j pc ∧
    pins_bound_by (meson_irq_domain_alloc_loop get_bank parent irq nr_irqs hwirq i k pc log).2.2
      = pins_bound_by log ++ (List.range' i j).map (fun t => to_int (hwirq + t)) := by
  induction j generalizing i k pc log with
  | zero =>
    obtain ⟨k, rfl⟩ : ∃ k0, k = k0 + 1 := ⟨k - 1, by omega⟩
    have hp := alloc_pin_eq get_bank parent pc (irq + i) (hwirq + i)
    simp only [alloc_singly, Nat.add_zero] at hfail
    rw [hp.2] at hfail
    have hneg : (meson_map_gic_irq get_bank pc (hwirq + i)).1 < 0 := by
      by_contra hn
      rw [if_neg hn] at hfail
      omega
    rw [if_pos hneg] at hfail
    simp only [meson_irq_domain_alloc_loop, hneg, if_true, alloc_singly, List.range'_zero,
      List.map_nil, List.append_nil]
    exact ⟨hfail, map_gic_irq_neg_state get_bank pc (hwirq + i) hneg, trivial⟩
  | succ j ih =>
    obtain ⟨k, rfl⟩ : ∃ k0, k = k0 + 1 := ⟨k - 1, by omega⟩
    have hp := alloc_pin_eq get_bank parent pc (irq + i) (hwirq + i)
    have h0 := hok 0 (Nat.succ_pos j)
    simp only [alloc_singly, Nat.add_zero] at h0
    rw [hp.2] at h0
    have hpos : ¬ (meson_map_gic_irq get_bank pc (hwirq + i)).1 < 0 := by
      intro hn
      rw [if_pos hn] at h0
      omega
    simp only [meson_irq_domain_alloc_loop, hpos, if_false]
    have hstate : alloc_singly get_bank parent irq hwirq i (j + 1) pc
        = alloc_singly get_bank parent irq hwirq (i + 1) j
            (meson_map_gic_irq get_bank pc (hwirq + i)).2 := by
      simp only [alloc_singly, hp.1]
    have hshift : ∀ t, alloc_singly get_bank parent irq hwirq i (t + 1) pc
        = alloc_singly get_bank parent irq hwirq (i + 1) t
            (meson_map_gic_irq get_bank pc (hwirq + i)).2 := by
      intro t
      simp only [alloc_singly, hp.1]
    have hstep := ih (i + 1) k (meson_map_gic_irq get_bank pc (hwirq + i)).2
      (log ++ [kernel_call.irq_domain_set_hwirq_and_chip (irq + i) (hwirq + i),
        kernel_call.irq_domain_alloc_irqs_parent (irq + i) nr_irqs
          (gic_data_for (meson_map_gic_irq get_bank pc (hwirq + i)).2
            (meson_map_gic_irq get_bank pc (hwirq + i)).1.toNat)])
      (by omega)
      (by
        intro t ht
        have h := hok (t + 1) (by omega)
        rw [hshift t] at h
        have e1 : i + (t + 1) = i + 1 + t := by omega
        rw [e1] at h
        exact h)
      (by
        have h := hfail
        rw [hshift j] at h
        have e1 : i + (j + 1) = i + 1 + j := by omega
        rw [e1] at h
        exact h)
    refine ⟨hstep.1, by rw [hstep.2.1, hstate], ?_⟩
    rw [hstep.2.2, pins_bound_by_append]
    simp [pins_bound_by, List.range'_succ]

theorem map_gic_irq_keeps_pin (get_bank : bank_lookup) (pc : meson_pinctrl) (hwirq : Nat)
    (p : Int) (hp : p ≠ IRQ_FREE) (hm : p ∈ pc.irq_map) :
    p ∈ (meson_map_gic_irq get_bank pc hwirq).2.irq_map := by
  by_cases hb : (get_bank hwirq).1 = 0
  · by_cases hfree : IRQ_FREE ∈ pc.irq_map
    · obtain ⟨s, hs, hlow, -⟩ := get_gic_irq_of_mem pc IRQ_FREE hfree
      rw [map_gic_irq_at get_bank pc hwirq s hb hs hlow]
      obtain ⟨j, hj⟩ := List.getElem?_of_mem hm
      have hjs : s ≠ j := by
        intro e
        rw [← e, hs] at hj
        exact hp (Option.some.inj hj).symm
      exact List.getElem?_mem (by rw [List.getElem?_set_ne hjs]; exact hj)
    · rw [map_gic_irq_full get_bank pc hwirq hfree hb]
      exact hm
  · rw [map_gic_irq_no_bank get_bank pc hwirq hb]
    exact hm

theorem map_gic_irq_binds_pin (get_bank : bank_lookup) (pc : meson_pinctrl) (hwirq : Nat)
    (hb : (get_bank hwirq).1 = 0) (hpos : ¬ (meson_map_gic_irq get_bank pc hwirq).1 < 0) :
    to_int hwirq ∈ (meson_map_gic_irq get_bank pc hwirq).2.irq_map := by
  by_cases hfree : IRQ_FREE ∈ pc.irq_map
  · obtain ⟨s, hs, hlow, -⟩ := get_gic_irq_of_mem pc IRQ_FREE hfree
    rw [map_gic_irq_at get_bank pc hwirq s hb hs hlow]
    exact List.mem_set _ _ (List.getElem?_eq_some_iff.1 hs).1 _
  · exfalso
    rw [map_gic_irq_full get_bank pc hwirq hfree hb] at hpos
    exact hpos (by simp [ENOSPC])

theorem alloc_singly_keeps_pin (get_bank : bank_lookup) (parent : parent_ops)
    (irq hwirq n i : Nat) (pc : meson_pinctrl) (p : Int) (hp : p ≠ IRQ_FREE)
    (hm : p ∈ pc.irq_map) :
    p ∈ (alloc_singly get_bank parent irq hwirq i n pc).irq_map := by
  induction n generalizing i pc with
  | zero => exact hm
  | succ n ih =>
    simp only [alloc_singly]
    apply ih
    rw [(alloc_pin_eq get_bank parent pc (irq + i) (hwirq + i)).1]
    exact map_gic_irq_keeps_pin get_bank pc (hwirq + i) p hp hm

theorem alloc_singly_binds (get_bank : bank_lookup) (parent : parent_ops)
    (irq hwirq j i : Nat) (pc : meson_pinctrl)
    (hok : ∀ t, t < j →
      (alloc_pin get_bank parent (alloc_singly get_bank parent irq hwirq i t pc)
        (irq + (i + t)) (hwirq + (i + t))).1 = 0)
    (t : Nat) (ht : t < j) (hb : (get_bank (hwirq + (i + t))).1 = 0)
    (hp : to_int (hwirq + (i + t)) ≠ IRQ_FREE) :
    to_int (hwirq + (i + t)) ∈ (alloc_singly get_bank parent irq hwirq i j pc).irq_map := by
  induction j generalizing i pc t with
  | zero => omega
  | succ j ih =>
    have hp1 := alloc_pin_eq get_bank parent pc (irq + i) (hwirq + i)
    have hshift : ∀ u, alloc_singly get_bank parent irq hwirq i (u + 1) pc
        = alloc_singly get_bank parent irq hwirq (i + 1) u
            (meson_map_gic_irq get_bank pc (hwirq + i)).2 := by
      intro u
      simp only [alloc_singly, hp1.1]
    rw [hshift j]
    cases t with
    | zero =>
      simp only [Nat.add_zero] at hb hp ⊢
      apply alloc_singly_keeps_pin _ _ _ _ _ _ _ _ hp
      apply map_gic_irq_binds_pin get_bank pc (hwirq + i) hb
      have h0 := hok 0 (Nat.succ_pos j)
      simp only [alloc_singly, Nat.add_zero] at h0
      rw [hp1.2] at h0
      intro hn
      rw [if_pos hn] at h0
      omega
    | succ t =>
      have e1 : i + (t + 1) = i + 1 + t := by omega
      rw [e1] at hb hp ⊢
      apply ih (i + 1) _ _ t (by omega) hb hp
      intro u hu
      have h := hok (u + 1) (by omega)
      rw [hshift u] at h
      have e2 : i + (u + 1) = i + 1 + u := by omega
      rw [e2] at h
      exact h

theorem reg_nibble_testBit (v k i : Nat) :
    (reg_nibble v k).testBit i = (decide (i < 4) && v.testBit (4 * k + i)) := by
  simp only [reg_nibble, Nat.testBit_mod_two_pow, Nat.testBit_shiftRight]

theorem nibble_mask_testBit (k j : Nat) :
    ((0xf : Nat) <<< (k * 4)).testBit j = (decide (k * 4 ≤ j) && decide (j < k * 4 + 4)) := by
  have h : (0xf : Nat) = 2 ^ 4 - 1 := by norm_num
  rw [h, Nat.testBit_shiftLeft, Nat.testBit_two_pow_sub_one]
  by_cases h1 : k * 4 ≤ j <;> by_cases h2 : j < k * 4 + 4 <;> simp [h1, h2] <;> omega

/-- Effect of the masked write of `meson_map_gic_irq` on the nibbles of the
filter register. -/
theorem filter_update_nibble (map : regmap) (reg val k c : Nat) (hk : k < 8) (hc : c < 8) :
    reg_nibble (regmap_update_bits map reg (0xf <<< (k * 4)) (val <<< (k * 4)) reg) c
      = if c = k then val % 2 ^ 4 else reg_nibble (map reg) c := by
  apply Nat.eq_of_testBit_eq
  intro i
  rw [reg_nibble_testBit, update_bits_testBit, nibble_mask_testBit]
  by_cases hck : c = k
  · subst hck
    simp only [if_true, Nat.testBit_mod_two_pow, Nat.testBit_shiftLeft]
    by_cases h4 : i < 4
    · have e1 : c * 4 ≤ 4 * c + i := by omega
      have e2 : 4 * c + i < c * 4 + 4 := by omega
      have e3 : 4 * c + i < 32 := by omega
      have e4 : 4 * c + i - c * 4 = i := by omega
      simp [h4, e1, e2, e3, e4]
    · simp [h4]
  · simp only [if_neg hck, reg_nibble_testBit]
    by_cases h4 : i < 4
    · have e3 : 4 * c + i < 32 := by omega
      have e5 : ¬ (k * 4 ≤ 4 * c + i ∧ 4 * c + i < k * 4 + 4) := by omega
      by_cases e1 : k * 4 ≤ 4 * c + i <;> by_cases e2 : 4 * c + i < k * 4 + 4
      · exact absurd ⟨e1, e2⟩ e5
      · simp [h4, e1, e2, e3]
      · simp [h4, e1, e2, e3]
      · simp [h4, e1, e2, e3]
    · simp [h4]

theorem slot_fields_distinct :
    ∀ i, i < 8 → ∀ j, j < 8 → i ≠ j →
      ((if i < 4 then REG_GPIO_SEL0 else REG_GPIO_SEL1)
          ≠ (if j < 4 then REG_GPIO_SEL0 else REG_GPIO_SEL1) ∨
        to_u32 (0xff <<< ((i % 4) * 8)) &&& to_u32 (0xff <<< ((j % 4) * 8)) = 0) ∧
      to_u32 (0xf <<< (i * 4)) &&& to_u32 (0xf <<< (j * 4)) = 0 := by
  decide

theorem sm_call_eq (monitor : secure_monitor) (w : sm_world)
    (cmd arg0 arg1 arg2 arg3 arg4 : Nat) :
    meson_sm_call monitor w cmd arg0 arg1 arg2 arg3 arg4
      = (to_u32 (monitor [cmd, arg0, arg1, arg2, arg3, arg4, 0, 0]
            w.sharemem_in w.sharemem_out).1,
          ⟨(monitor [cmd, arg0, arg1, arg2, arg3, arg4, 0, 0] w.sharemem_in w.sharemem_out).2.1,
           (monitor [cmd, arg0, arg1, arg2, arg3, arg4, 0, 0] w.sharemem_in w.sharemem_out).2.2,
           w.trace ++ [sm_event.smc [cmd, arg0, arg1, arg2, arg3, arg4, 0, 0]]⟩) := rfl

/-! ## The claims on delegation, initialisation, batches and slot fields -/

/-- C11 (the code departs from the claim). The request that
`meson_irq_domain_alloc` forwards to the parent has three cells of which cell
0 holds 0, cell 1 holds the rising-edge type and cell 2 is never written: the
line identity `gic_irqs[s]` is stored in cell 1 and overwritten by the type in
the next statement. At the failing input, a pool whose slot 0 belongs to line
64, the Allocate of pin 10 succeeds, binds slot 0 and forwards a request in
which 64 does not occur. -/
theorem alloc_request_drops_line :
    (∀ (pc : meson_pinctrl) (s : Nat),
      (gic_data_for pc s).param_count = 3 ∧
      (gic_data_for pc s).param[0]? = some (some 0) ∧
      (gic_data_for pc s).param[1]? = some (some IRQ_TYPE_EDGE_RISING) ∧
      (gic_data_for pc s).param[2]? = some none) ∧
    (meson_irq_domain_alloc (single_bank ⟨0, 0⟩ 100) parent_ok pool_lines 7 1
        (fwspec_for 10 IRQ_TYPE_EDGE_RISING)).1 = 0 ∧
    (meson_irq_domain_alloc (single_bank ⟨0, 0⟩ 100) parent_ok pool_lines 7 1
        (fwspec_for 10 IRQ_TYPE_EDGE_RISING)).2.1.irq_map = [10, IRQ_FREE, IRQ_FREE] ∧
    pool_lines.gic_irqs[0]? = some 64 ∧
    (meson_irq_domain_alloc (single_bank ⟨0, 0⟩ 100) parent_ok pool_lines 7 1
        (fwspec_for 10 IRQ_TYPE_EDGE_RISING)).2.2
      = [kernel_call.irq_domain_set_hwirq_and_chip 7 10,
         kernel_call.irq_domain_alloc_irqs_parent 7 1
           ⟨3, some 0 :: some IRQ_TYPE_EDGE_RISING :: List.replicate 14 none⟩] ∧
    some 64 ∉ (gic_data_for pool_lines 0).param := by
  refine ⟨?_, by decide, by decide, by decide, by decide, by decide⟩
  intro pc s
  rw [gic_data_for_param]
  exact ⟨rfl, rfl, rfl, rfl⟩

/-- C12 (the code departs from the claim). The result of
`irq_domain_alloc_irqs_parent` is stored in `ret` and never read, so whatever
the parent answers, `meson_irq_domain_alloc` gives the same result. At the
failing input the parent refuses the delegated allocation of pin 10 with -5,
the call is made, and `meson_irq_domain_alloc` returns 0. -/
theorem alloc_swallows_parent_error :
    (∀ (get_bank : bank_lookup) (p1 p2 : parent_ops) (pc : meson_pinctrl) (irq nr_irqs : Nat)
        (arg : irq_fwspec),
      meson_irq_domain_alloc get_bank p1 pc irq nr_irqs arg
        = meson_irq_domain_alloc get_bank p2 pc irq nr_irqs arg) ∧
    parent_eio.irq_domain_alloc_irqs_parent 7 1 (gic_data_for (empty_pool 3) 0) = -5 ∧
    (meson_irq_domain_alloc (single_bank ⟨0, 0⟩ 100) parent_eio (empty_pool 3) 7 1
        (fwspec_for 10 IRQ_TYPE_EDGE_RISING)).2.2
      = [kernel_call.irq_domain_set_hwirq_and_chip 7 10,
         kernel_call.irq_domain_alloc_irqs_parent 7 1 (gic_data_for (empty_pool 3) 0)] ∧
    (meson_irq_domain_alloc (single_bank ⟨0, 0⟩ 100) parent_eio (empty_pool 3) 7 1
        (fwspec_for 10 IRQ_TYPE_EDGE_RISING)).1 = 0 := by
  refine ⟨?_, by decide, by decide, by decide⟩
  intro get_bank p1 p2 pc irq nr_irqs arg
  exact alloc_ignores_parent get_bank p1 p2 pc irq nr_irqs arg

/-- C13 (the code departs from the claim). When `meson_map_gic_irq` fails (no
free slot, or the bank does not resolve) the driver state is what it was, so
no binding is left behind. When the delegated allocation of the parent fails,
the binding stays: at the failing input no slot holds pin 10 before the call,
the parent refuses the delegated allocation with -5, and afterwards slot 0
holds pin 10 and the call has returned 0. -/
theorem failed_parent_alloc_keeps_binding :
    (∀ (get_bank : bank_lookup) (pc : meson_pinctrl) (hwirq : Nat),
      (meson_map_gic_irq get_bank pc hwirq).1 < 0 →
        (meson_map_gic_irq get_bank pc hwirq).2 = pc) ∧
    parent_eio.irq_domain_alloc_irqs_parent 7 1 (gic_data_for (empty_pool 3) 0) = -5 ∧
    (∀ s : Nat, s < 3 → (empty_pool 3).irq_map[s]? ≠ some (to_int 10)) ∧
    (meson_irq_domain_alloc (single_bank ⟨0, 0⟩ 100) parent_eio (empty_pool 3) 7 1
        (fwspec_for 10 IRQ_TYPE_EDGE_RISING)).2.1.irq_map[0]? = some (to_int 10) ∧
    (meson_irq_domain_alloc (single_bank ⟨0, 0⟩ 100) parent_eio (empty_pool 3) 7 1
        (fwspec_for 10 IRQ_TYPE_EDGE_RISING)).1 = 0 := by
  refine ⟨?_, by decide, by decide, by decide, by decide⟩
  intro get_bank pc hwirq hneg
  exact map_gic_irq_neg_state get_bank pc hwirq hneg

/-- C14. After a successful `meson_gpio_irq_init` on a platform whose property
`amlogic,irqs-gpio` has `N = size / 4` cells, whatever the fresh memory of
`irq_map` held: the table has `N` entries, every entry is `IRQ_FREE`, the
free-slot lookup returns slot 0 when `N > 0`, and the reverse lookup of every
pin number that does not convert to the sentinel, so of every pin number below
`2 ^ 31`, returns -1. -/
theorem init_all_free (plat : irq_platform) (pc : meson_pinctrl) (prop : of_property)
    (hok : (meson_gpio_irq_init plat pc).1 = 0) (hprop : plat.irqs_gpio = some prop) :
    (meson_gpio_irq_init plat pc).2.num_gic_irqs = prop.size / 4 ∧
    (∀ s, s < prop.size / 4 → (meson_gpio_irq_init plat pc).2.irq_map[s]? = some IRQ_FREE) ∧
    (0 < prop.size / 4 → meson_get_gic_irq (meson_gpio_irq_init plat pc).2 IRQ_FREE = 0) ∧
    (∀ hwirq : Nat, to_int hwirq ≠ IRQ_FREE →
      meson_get_gic_irq (meson_gpio_irq_init plat pc).2 (to_int hwirq) = -1) ∧
    (∀ hwirq : Nat, hwirq < 2 ^ 31 →
      meson_get_gic_irq (meson_gpio_irq_init plat pc).2 (to_int hwirq) = -1) := by
  have htab := init_success_table plat pc prop hok hprop
  have hnot : ∀ hwirq : Nat, to_int hwirq ≠ IRQ_FREE →
      meson_get_gic_irq (meson_gpio_irq_init plat pc).2 (to_int hwirq) = -1 := by
    intro hwirq hne
    unfold meson_get_gic_irq
    apply get_from_of_not_mem
    rw [htab]
    intro hm
    exact hne (List.eq_of_mem_replicate hm)
  refine ⟨?_, ?_, ?_, hnot, ?_⟩
  · show (meson_gpio_irq_init plat pc).2.irq_map.length = prop.size / 4
    rw [htab, List.length_replicate]
  · intro s hs
    rw [htab, List.getElem?_replicate, if_pos hs]
  · intro hpos
    have h := get_gic_irq_lowest (meson_gpio_irq_init plat pc).2 IRQ_FREE 0
      (by rw [htab, List.getElem?_replicate, if_pos hpos])
      (fun j hj => absurd hj (Nat.not_lt_zero j))
    simpa using h
  · intro hwirq hlt
    apply hnot
    rw [to_int_of_lt hwirq hlt]
    unfold IRQ_FREE
    omega

/-- Witness of C14: a platform with three shared lines and junk in the fresh
memory of `irq_map`. -/
theorem init_all_free_witness :
    (meson_gpio_irq_init platform_3 (pool_of [])).2.num_gic_irqs = 12 / 4 ∧
    (∀ s, s < 12 / 4 →
      (meson_gpio_irq_init platform_3 (pool_of [])).2.irq_map[s]? = some IRQ_FREE) ∧
    (0 < 12 / 4 →
      meson_get_gic_irq (meson_gpio_irq_init platform_3 (pool_of [])).2 IRQ_FREE = 0) ∧
    (∀ hwirq : Nat, to_int hwirq ≠ IRQ_FREE →
      meson_get_gic_irq (meson_gpio_irq_init platform_3 (pool_of [])).2 (to_int hwirq) = -1) ∧
    (∀ hwirq : Nat, hwirq < 2 ^ 31 →
      meson_get_gic_irq (meson_gpio_irq_init platform_3 (pool_of [])).2 (to_int hwirq) = -1) :=
  init_all_free platform_3 (pool_of []) ⟨12, [64, 65, 66]⟩ (by decide) rfl

/-- C15. In an Allocate request of `k` consecutive pins `hwirq`, `hwirq + 1`,
..., when the single Allocate of each of the first `j` pins, one after another,
succeeds and that of the pin at position `j < k` fails with `e`: the request
returns `e`; the driver state (table and registers) is the state after the
`j` single Allocate calls; the pins for which the call made a binding are the
first `j`, in increasing order; each of them that is a real pin is held by a
slot of the final table; and `e` is `-ENOSPC` when the failure is that of a
full pool. -/
theorem batch_alloc_prefix (get_bank : bank_lookup) (parent : parent_ops)
    (pc : meson_pinctrl) (irq hwirq k j : Nat) (e : Int) (arg : irq_fwspec)
    (harg : arg.param_count = 2) (hpin : arg.cell 0 = hwirq) (hjk : j < k)
    (hok : ∀ t, t < j →
      (alloc_pin get_bank parent (alloc_singly get_bank parent irq hwirq 0 t pc)
        (irq + t) (hwirq + t)).1 = 0)
    (hfail : (alloc_pin get_bank parent (alloc_singly get_bank parent irq hwirq 0 j pc)
        (irq + j) (hwirq + j)).1 = e)
    (he : e < 0) :
    (meson_irq_domain_alloc get_bank parent pc irq k arg).1 = e ∧
    (meson_irq_domain_alloc get_bank parent pc irq k arg).2.1
      = alloc_singly get_bank parent irq hwirq 0 j pc ∧
    pins_bound_by (meson_irq_domain_alloc get_bank parent pc irq k arg).2.2
      = (List.range j).map (fun t => to_int (hwirq + t)) ∧
    (∀ t, t < j → (get_bank (hwirq + t)).1 = 0 → to_int (hwirq + t) ≠ IRQ_FREE →
      to_int (hwirq + t) ∈ (meson_irq_domain_alloc get_bank parent pc irq k arg).2.1.irq_map) ∧
    ((get_bank (hwirq + j)).1 = 0 →
      (∀ s, s < (alloc_singly get_bank parent irq hwirq 0 j pc).num_gic_irqs →
        (alloc_singly get_bank parent irq hwirq 0 j pc).irq_map[s]? ≠ some IRQ_FREE) →
      e = -ENOSPC) := by
  have hok2 : ∀ t, t < j →
      (alloc_pin get_bank parent (alloc_singly get_bank parent irq hwirq 0 t pc)
        (irq + (0 + t)) (hwirq + (0 + t))).1 = 0 := by
    intro t ht
    rw [Nat.zero_add]
    exact hok t ht
  have hfail2 : (alloc_pin get_bank parent (alloc_singly get_bank parent irq hwirq 0 j pc)
        (irq + (0 + j)) (hwirq + (0 + j))).1 = e := by
    rw [Nat.zero_add]
    exact hfail
  obtain ⟨h1, h2, h3⟩ := alloc_loop_prefix get_bank parent irq k hwirq e he j 0 k pc [] hjk
    hok2 hfail2
  have hunf : meson_irq_domain_alloc get_bank parent pc irq k arg
      = meson_irq_domain_alloc_loop get_bank parent irq k hwirq 0 k pc [] := by
    simp [meson_irq_domain_alloc, harg, hpin]
  rw [hunf]
  refine ⟨h1, h2, ?_, ?_, ?_⟩
  · rw [h3, List.range_eq_range']
    rfl
  · intro t ht hb hp
    rw [h2]
    have := alloc_singly_binds get_bank parent irq hwirq j 0 pc hok2 t ht
      (by rw [Nat.zero_add]; exact hb) (by rw [Nat.zero_add]; exact hp)
    rw [Nat.zero_add] at this
    exact this
  · intro hb hfull
    have hfull2 : IRQ_FREE ∉ (alloc_singly get_bank parent irq hwirq 0 j pc).irq_map :=
      not_mem_of_slots _ IRQ_FREE hfull
    have hp := alloc_pin_eq get_bank parent (alloc_singly get_bank parent irq hwirq 0 j pc)
      (irq + j) (hwirq + j)
    rw [hp.2, map_gic_irq_full get_bank _ (hwirq + j) hfull2 hb] at hfail
    simp [ENOSPC] at hfail
    rw [← hfail]
    rfl

/-- Witness of C15: two lines and a request for the three pins 10, 11, 12; the
pin at position 2 finds the pool full. -/
theorem batch_alloc_prefix_witness :
    (meson_irq_domain_alloc (single_bank ⟨0, 0⟩ 100) parent_ok (empty_pool 2) 5 3
        (fwspec_for 10 IRQ_TYPE_EDGE_RISING)).1 = -ENOSPC ∧
    (meson_irq_domain_alloc (single_bank ⟨0, 0⟩ 100) parent_ok (empty_pool 2) 5 3
        (fwspec_for 10 IRQ_TYPE_EDGE_RISING)).2.1
      = alloc_singly (single_bank ⟨0, 0⟩ 100) parent_ok 5 10 0 2 (empty_pool 2) ∧
    pins_bound_by (meson_irq_domain_alloc (single_bank ⟨0, 0⟩ 100) parent_ok (empty_pool 2) 5 3
        (fwspec_for 10 IRQ_TYPE_EDGE_RISING)).2.2
      = (List.range 2).map (fun t => to_int (10 + t)) ∧
    (∀ t, t < 2 → (single_bank ⟨0, 0⟩ 100 (10 + t)).1 = 0 → to_int (10 + t) ≠ IRQ_FREE →
      to_int (10 + t) ∈ (meson_irq_domain_alloc (single_bank ⟨0, 0⟩ 100) parent_ok (empty_pool 2)
        5 3 (fwspec_for 10 IRQ_TYPE_EDGE_RISING)).2.1.irq_map) ∧
    ((single_bank ⟨0, 0⟩ 100 (10 + 2)).1 = 0 →
      (∀ s, s < (alloc_singly (single_bank ⟨0, 0⟩ 100) parent_ok 5 10 0 2
          (empty_pool 2)).num_gic_irqs →
        (alloc_singly (single_bank ⟨0, 0⟩ 100) parent_ok 5 10 0 2 (empty_pool 2)).irq_map[s]?
          ≠ some IRQ_FREE) →
      -ENOSPC = -ENOSPC) :=
  batch_alloc_prefix (single_bank ⟨0, 0⟩ 100) parent_ok (empty_pool 2) 5 10 3 2 (-ENOSPC)
    (fwspec_for 10 IRQ_TYPE_EDGE_RISING) (by decide) (by decide) (by decide) (by decide)
    (by decide) (by decide)

/-- C16 (as amended). For every pool and any two distinct slots `i`, `j` below
8: the selection byte of slot `i` and that of slot `j` lie in different
registers or have masks without a common bit, and their filter nibbles have
masks without a common bit; and binding a pin to slot `i` (the lowest free
slot) sets the filter nibble of slot `i` to 7 and leaves the filter nibble and
the selection byte of slot `j` as they were. -/
theorem slot_fields_disjoint (get_bank : bank_lookup) (pc : meson_pinctrl) (hwirq i j : Nat)
    (hi : i < 8) (hj : j < 8) (hne : i ≠ j)
    (hbank : (get_bank hwirq).1 = 0)
    (hslot : pc.irq_map[i]? = some IRQ_FREE)
    (hlow : ∀ t, t < i → pc.irq_map[t]? ≠ some IRQ_FREE) :
    ((if i < 4 then REG_GPIO_SEL0 else REG_GPIO_SEL1)
        ≠ (if j < 4 then REG_GPIO_SEL0 else REG_GPIO_SEL1) ∨
      to_u32 (0xff <<< ((i % 4) * 8)) &&& to_u32 (0xff <<< ((j % 4) * 8)) = 0) ∧
    to_u32 (0xf <<< (i * 4)) &&& to_u32 (0xf <<< (j * 4)) = 0 ∧
    (meson_map_gic_irq get_bank pc hwirq).1 = (i : Int) ∧
    reg_nibble ((meson_map_gic_irq get_bank pc hwirq).2.reg_irq REG_FILTER) i = 7 ∧
    reg_nibble ((meson_map_gic_irq get_bank pc hwirq).2.reg_irq REG_FILTER) j
      = reg_nibble (pc.reg_irq REG_FILTER) j ∧
    reg_byte ((meson_map_gic_irq get_bank pc hwirq).2.reg_irq
        (if j < 4 then REG_GPIO_SEL0 else REG_GPIO_SEL1)) (j % 4)
      = reg_byte (pc.reg_irq (if j < 4 then REG_GPIO_SEL0 else REG_GPIO_SEL1)) (j % 4) := by
  obtain ⟨hd1, hd2⟩ := slot_fields_distinct i hi j hj hne
  have hmap := map_gic_irq_at get_bank pc hwirq i hbank hslot hlow
  have hselj : (if j < 4 then REG_GPIO_SEL0 else REG_GPIO_SEL1) ≠ REG_FILTER := by
    split <;> decide
  have hseli : REG_FILTER ≠ (if i < 4 then REG_GPIO_SEL0 else REG_GPIO_SEL1) := by
    split <;> decide
  have hfilter : ∀ c, c < 8 →
      reg_nibble ((meson_map_gic_irq get_bank pc hwirq).2.reg_irq REG_FILTER) c
        = if c = i then 7 % 2 ^ 4 else reg_nibble (pc.reg_irq REG_FILTER) c := by
    intro c hc
    rw [hmap]
    simp only
    rw [filter_update_nibble _ _ _ _ _ hi hc, update_bits_other _ _ _ _ _ hseli]
  refine ⟨hd1, hd2, by rw [hmap], ?_, ?_, ?_⟩
  · rw [hfilter i hi, if_pos rfl]
    norm_num
  · rw [hfilter j hj, if_neg (fun e => hne e.symm)]
  · rw [hmap]
    simp only
    rw [update_bits_other _ _ _ _ _ hselj]
    by_cases hsame : (if j < 4 then REG_GPIO_SEL0 else REG_GPIO_SEL1)
        = (if i < 4 then REG_GPIO_SEL0 else REG_GPIO_SEL1)
    · rw [hsame, sel_update_byte _ _ _ _ _ (Nat.mod_lt i (by decide)) (Nat.mod_lt j (by decide))]
      have hmod : j % 4 ≠ i % 4 := by
        intro e
        by_cases h1 : i < 4 <;> by_cases h2 : j < 4
        · omega
        · simp [h1, h2, REG_GPIO_SEL0, REG_GPIO_SEL1] at hsame
        · simp [h1, h2, REG_GPIO_SEL0, REG_GPIO_SEL1] at hsame
        · omega
      rw [if_neg hmod]
    · rw [update_bits_other _ _ _ _ _ hsame]

/-- Witness of C16 (as amended): eight lines with slots 0 to 4 taken; pin 105
of the H bank is bound to slot 5, and slot 2 is the other slot. -/
theorem slot_fields_disjoint_witness :
    ((if 5 < 4 then REG_GPIO_SEL0 else REG_GPIO_SEL1)
        ≠ (if 2 < 4 then REG_GPIO_SEL0 else REG_GPIO_SEL1) ∨
      to_u32 (0xff <<< ((5 % 4) * 8)) &&& to_u32 (0xff <<< ((2 % 4) * 8)) = 0) ∧
    to_u32 (0xf <<< (5 * 4)) &&& to_u32 (0xf <<< (2 * 4)) = 0 ∧
    (meson_map_gic_irq (single_bank bank_H 14) pool_H 105).1 = ((5 : Nat) : Int) ∧
    reg_nibble ((meson_map_gic_irq (single_bank bank_H 14) pool_H 105).2.reg_irq REG_FILTER) 5
      = 7 ∧
    reg_nibble ((meson_map_gic_irq (single_bank bank_H 14) pool_H 105).2.reg_irq REG_FILTER) 2
      = reg_nibble (pool_H.reg_irq REG_FILTER) 2 ∧
    reg_byte ((meson_map_gic_irq (single_bank bank_H 14) pool_H 105).2.reg_irq
        (if 2 < 4 then REG_GPIO_SEL0 else REG_GPIO_SEL1)) (2 % 4)
      = reg_byte (pool_H.reg_irq (if 2 < 4 then REG_GPIO_SEL0 else REG_GPIO_SEL1)) (2 % 4) :=
  slot_fields_disjoint (single_bank bank_H 14) pool_H 105 5 2 (by decide) (by decide)
    (by decide) (by decide) (by decide) (by decide)

/-- Counterexample to C16 as stated: a pool of nine lines in which slots 0 to
7 are taken. Pin 50 is bound to slot 8. Slot 8 and slot 4 address the same
byte of the second selection register, so the selection byte of slot 4 changes
from 14 to 50; and the filter mask of slot 8 lies beyond the 32 bits of the
register, so no filter nibble of slot 8 is set to 7. -/
theorem slot8_shares_slot4_fields :
    pool_9.num_gic_irqs = 9 ∧
    (meson_map_gic_irq (single_bank ⟨0, 0⟩ 100) pool_9 50).1 = 8 ∧
    (if 8 < 4 then REG_GPIO_SEL0 else REG_GPIO_SEL1)
      = (if 4 < 4 then REG_GPIO_SEL0 else REG_GPIO_SEL1) ∧
    to_u32 (0xff <<< ((8 % 4) * 8)) = to_u32 (0xff <<< ((4 % 4) * 8)) ∧
    reg_byte (pool_9.reg_irq REG_GPIO_SEL1) (4 % 4) = 14 ∧
    reg_byte ((meson_map_gic_irq (single_bank ⟨0, 0⟩ 100) pool_9 50).2.reg_irq
      REG_GPIO_SEL1) (4 % 4) = 50 ∧
    to_u32 (0xf <<< (8 * 4)) = 0 ∧
    reg_nibble ((meson_map_gic_irq (single_bank ⟨0, 0⟩ 100) pool_9 50).2.reg_irq
      REG_FILTER) 8 ≠ 7 := by
  decide

/-- C17. `meson_sm_call_read` returns the reply `size` of the monitor and copies
exactly `size` bytes out of the shared output buffer when `1 ≤ size ≤ 0x1000`,
and otherwise returns `(u32)(-EINVAL)` and copies nothing.
`meson_sm_call_write` with `b_size > 0x1000` returns `(u32)(-EINVAL)` and
leaves the world as it was (no copy, no monitor call); with `b_size ≤ 0x1000`
it copies `b_size` bytes into the shared input buffer, calls the monitor and
returns the reply, or `(u32)(-EINVAL)` when the reply is 0. No transfer that
either function adds to the trace moves more than `SM_MEM_SIZE` bytes. -/
theorem sm_transfers_bounded (monitor : secure_monitor) (w : sm_world) (buffer : List Nat)
    (b_size cmd arg0 arg1 arg2 arg3 arg4 : Nat) :
    ((1 ≤ (meson_sm_call monitor w cmd arg0 arg1 arg2 arg3 arg4).1 ∧
        (meson_sm_call monitor w cmd arg0 arg1 arg2 arg3 arg4).1 ≤ 0x1000) →
      (meson_sm_call_read monitor w buffer cmd arg0 arg1 arg2 arg3 arg4).1
        = (meson_sm_call monitor w cmd arg0 arg1 arg2 arg3 arg4).1 ∧
      (meson_sm_call_read monitor w buffer cmd arg0 arg1 arg2 arg3 arg4).2.1
        = memcpy buffer (meson_sm_call monitor w cmd arg0 arg1 arg2 arg3 arg4).2.sharemem_out
            (meson_sm_call monitor w cmd arg0 arg1 arg2 arg3 arg4).1 ∧
      (meson_sm_call_read monitor w buffer cmd arg0 arg1 arg2 arg3 arg4).2.2.trace
        = w.trace ++ [sm_event.smc [cmd, arg0, arg1, arg2, arg3, arg4, 0, 0],
            sm_event.memcpy_from_out (meson_sm_call monitor w cmd arg0 arg1 arg2 arg3 arg4).1]) ∧
    (¬ (1 ≤ (meson_sm_call monitor w cmd arg0 arg1 arg2 arg3 arg4).1 ∧
        (meson_sm_call monitor w cmd arg0 arg1 arg2 arg3 arg4).1 ≤ 0x1000) →
      (meson_sm_call_read monitor w buffer cmd arg0 arg1 arg2 arg3 arg4).1
        = int_to_u32 (-EINVAL) ∧
      (meson_sm_call_read monitor w buffer cmd arg0 arg1 arg2 arg3 arg4).2.1 = buffer ∧
      (meson_sm_call_read monitor w buffer cmd arg0 arg1 arg2 arg3 arg4).2.2.trace
        = w.trace ++ [sm_event.smc [cmd, arg0, arg1, arg2, arg3, arg4, 0, 0]]) ∧
    (0x1000 < b_size →
      meson_sm_call_write monitor w buffer b_size cmd arg0 arg1 arg2 arg3 arg4
        = (int_to_u32 (-EINVAL), w)) ∧
    (b_size ≤ 0x1000 →
      (meson_sm_call_write monitor w buffer b_size cmd arg0 arg1 arg2 arg3 arg4).2.trace
        = w.trace ++ [sm_event.memcpy_to_in b_size,
            sm_event.smc [cmd, arg0, arg1, arg2, arg3, arg4, 0, 0]] ∧
      (meson_sm_call_write monitor w buffer b_size cmd arg0 arg1 arg2 arg3 arg4).1
        = (if to_u32 (monitor [cmd, arg0, arg1, arg2, arg3, arg4, 0, 0]
              (memcpy w.sharemem_in buffer b_size) w.sharemem_out).1 = 0
            then int_to_u32 (-EINVAL)
            else to_u32 (monitor [cmd, arg0, arg1, arg2, arg3, arg4, 0, 0]
              (memcpy w.sharemem_in buffer b_size) w.sharemem_out).1)) ∧
    (∀ ev, ev ∈ (meson_sm_call_read monitor w buffer cmd arg0 arg1 arg2 arg3 arg4).2.2.trace →
      ev ∈ w.trace ∨ ev.bytes ≤ SM_MEM_SIZE) ∧
    (∀ ev,
      ev ∈ (meson_sm_call_write monitor w buffer b_size cmd arg0 arg1 arg2 arg3 arg4).2.trace →
      ev ∈ w.trace ∨ ev.bytes ≤ SM_MEM_SIZE) ∧
    int_to_u32 (-EINVAL) = 2 ^ 32 - 22 := by
  have hS : SM_MEM_SIZE = 0x1000 := rfl
  refine ⟨?_, ?_, ?_, ?_, ?_, ?_, by decide⟩
  · rintro ⟨h1, h2⟩
    have hc : ¬ ((meson_sm_call monitor w cmd arg0 arg1 arg2 arg3 arg4).1 = 0 ∨
        (meson_sm_call monitor w cmd arg0 arg1 arg2 arg3 arg4).1 > SM_MEM_SIZE) := by
      rw [hS]; omega
    simp only [meson_sm_call_read, if_neg hc]
    rw [sm_call_eq]
    simp
  · intro h
    have hc : ((meson_sm_call monitor w cmd arg0 arg1 arg2 arg3 arg4).1 = 0 ∨
        (meson_sm_call monitor w cmd arg0 arg1 arg2 arg3 arg4).1 > SM_MEM_SIZE) := by
      rw [hS]; omega
    simp only [meson_sm_call_read, if_pos hc]
    rw [sm_call_eq]
    simp
  · intro h
    have hc : b_size > SM_MEM_SIZE := by rw [hS]; omega
    simp only [meson_sm_call_write, if_pos hc]
  · intro h
    have hc : ¬ b_size > SM_MEM_SIZE := by rw [hS]; omega
    simp only [meson_sm_call_write, if_neg hc, sm_call_eq]
    constructor
    · split <;> simp
    · split <;> rfl
  · intro ev hev
    simp only [meson_sm_call_read, sm_call_eq] at hev
    split at hev
    · simp only [List.mem_append, List.mem_singleton] at hev
      rcases hev with h | h
      · exact Or.inl h
      · right; rw [h]; simp [sm_event.bytes]
    · rename_i hc
      simp only [List.mem_append, List.mem_singleton] at hev
      rcases hev with (h | h) | h
      · exact Or.inl h
      · right; rw [h]; simp [sm_event.bytes]
      · right
        rw [h]
        simp only [sm_event.bytes]
        omega
  · intro ev hev
    simp only [meson_sm_call_write] at hev
    split at hev
    · exact Or.inl hev
    · rename_i hc
      simp only [sm_call_eq] at hev
      have hmem : ev ∈ w.trace ++ [sm_event.memcpy_to_in b_size] ++
          [sm_event.smc [cmd, arg0, arg1, arg2, arg3, arg4, 0, 0]] := by
        split at hev <;> exact hev
      simp only [List.mem_append, List.mem_singleton] at hmem
      rcases hmem with (h | h) | h
      · exact Or.inl h
      · right
        rw [h]
        simp only [sm_event.bytes]
        omega
      · right; rw [h]; simp [sm_event.bytes]

/-- Witness of C17: a monitor that answers 3 and puts three bytes into the
output buffer; a read into a buffer of five bytes and a write of two bytes. -/
theorem sm_transfers_bounded_witness :
    ((1 ≤ (meson_sm_call monitor_3 world_4 1 0 0 0 0 0).1 ∧
        (meson_sm_call monitor_3 world_4 1 0 0 0 0 0).1 ≤ 0x1000) →
      (meson_sm_call_read monitor_3 world_4 [5, 5, 5, 5, 5] 1 0 0 0 0 0).1
        = (meson_sm_call monitor_3 world_4 1 0 0 0 0 0).1 ∧
      (meson_sm_call_read monitor_3 world_4 [5, 5, 5, 5, 5] 1 0 0 0 0 0).2.1
        = memcpy [5, 5, 5, 5, 5] (meson_sm_call monitor_3 world_4 1 0 0 0 0 0).2.sharemem_out
            (meson_sm_call monitor_3 world_4 1 0 0 0 0 0).1 ∧
      (meson_sm_call_read monitor_3 world_4 [5, 5, 5, 5, 5] 1 0 0 0 0 0).2.2.trace
        = world_4.trace ++ [sm_event.smc [1, 0, 0, 0, 0, 0, 0, 0],
            sm_event.memcpy_from_out (meson_sm_call monitor_3 world_4 1 0 0 0 0 0).1]) ∧
    (¬ (1 ≤ (meson_sm_call monitor_3 world_4 1 0 0 0 0 0).1 ∧
        (meson_sm_call monitor_3 world_4 1 0 0 0 0 0).1 ≤ 0x1000) →
      (meson_sm_call_read monitor_3 world_4 [5, 5, 5, 5, 5] 1 0 0 0 0 0).1
        = int_to_u32 (-EINVAL) ∧
      (meson_sm_call_read monitor_3 world_4 [5, 5, 5, 5, 5] 1 0 0 0 0 0).2.1 = [5, 5, 5, 5, 5] ∧
      (meson_sm_call_read monitor_3 world_4 [5, 5, 5, 5, 5] 1 0 0 0 0 0).2.2.trace
        = world_4.trace ++ [sm_event.smc [1, 0, 0, 0, 0, 0, 0, 0]]) ∧
    (0x1000 < 2 →
      meson_sm_call_write monitor_3 world_4 [5, 5, 5, 5, 5] 2 1 0 0 0 0 0
        = (int_to_u32 (-EINVAL), world_4)) ∧
    (2 ≤ 0x1000 →
      (meson_sm_call_write monitor_3 world_4 [5, 5, 5, 5, 5] 2 1 0 0 0 0 0).2.trace
        = world_4.trace ++ [sm_event.memcpy_to_in 2,
            sm_event.smc [1, 0, 0, 0, 0, 0, 0, 0]] ∧
      (meson_sm_call_write monitor_3 world_4 [5, 5, 5, 5, 5] 2 1 0 0 0 0 0).1
        = (if to_u32 (monitor_3 [1, 0, 0, 0, 0, 0, 0, 0]
              (memcpy world_4.sharemem_in [5, 5, 5, 5, 5] 2) world_4.sharemem_out).1 = 0
            then int_to_u32 (-EINVAL)
            else to_u32 (monitor_3 [1, 0, 0, 0, 0, 0, 0, 0]
              (memcpy world_4.sharemem_in [5, 5, 5, 5, 5] 2) world_4.sharemem_out).1)) ∧
    (∀ ev, ev ∈ (meson_sm_call_read monitor_3 world_4 [5, 5, 5, 5, 5] 1 0 0 0 0 0).2.2.trace →
      ev ∈ world_4.trace ∨ ev.bytes ≤ SM_MEM_SIZE) ∧
    (∀ ev,
      ev ∈ (meson_sm_call_write monitor_3 world_4 [5, 5, 5, 5, 5] 2 1 0 0 0 0 0).2.trace →
      ev ∈ world_4.trace ∨ ev.bytes ≤ SM_MEM_SIZE) ∧
    int_to_u32 (-EINVAL) = 2 ^ 32 - 22 :=
  sm_transfers_bounded monitor_3 world_4 [5, 5, 5, 5, 5] 2 1 0 0 0 0 0

end Meson
